import Mathlib

/-!
Verification of the Record Normalization & Incremental Reconciliation Engine
of the Student_Attendance repository.

The definitions below are a shallow embedding of `src/utils.py`,
`src/api.py` and `src/student_attendance_monthly.py`.  Python strings are
modelled as Lean `String` (a list of code points, as in CPython); the
embedding of the character-class primitives (`\s`, `[A-Za-z]`, `.upper()`,
`.lower()`) covers the ASCII range, which is the range exercised by this
data set (school / grade / gender tokens).
-/

namespace StudentAttendance

/-- Whitespace characters of Python `\s` / `str.strip()` (ASCII range):
space, tab, newline, carriage return, vertical tab, form feed. -/
def spaceChars : List Char := [' ', '\t', '\n', '\r', '\x0b', '\x0c']

/-- Membership in the Python whitespace class. -/
def pyIsSpace (c : Char) : Bool := spaceChars.contains c

/-- Python `str.upper()` on one character (ASCII range). -/
def pyToUpper (c : Char) : Char :=
  if 'a' ≤ c ∧ c ≤ 'z' then Char.ofNat (c.toNat - 32) else c

/-- Python `str.lower()` on one character (ASCII range). -/
def pyToLower (c : Char) : Char :=
  if 'A' ≤ c ∧ c ≤ 'Z' then Char.ofNat (c.toNat + 32) else c

/-- Regex class `[A-Za-z]` (used by `extract_division` and `.title()`). -/
def pyIsAlpha (c : Char) : Bool :=
  decide (('A' ≤ c ∧ c ≤ 'Z') ∨ ('a' ≤ c ∧ c ≤ 'z'))

/-- The ten decimal digit characters. -/
def digitChars : List Char := ['0', '1', '2', '3', '4', '5', '6', '7', '8', '9']

/-- Regex class `\d` (ASCII digits, as matched by `re` on the data here). -/
def pyIsDigit (c : Char) : Bool := digitChars.contains c

/-- Numeric value of one digit character (0 on non-digits, never reached). -/
def digitVal (c : Char) : Nat :=
  match c with
  | '0' => 0 | '1' => 1 | '2' => 2 | '3' => 3 | '4' => 4
  | '5' => 5 | '6' => 6 | '7' => 7 | '8' => 8 | '9' => 9
  | _ => 0

/-- Python `int(...)` on a string of decimal digits. -/
def digitsToNat (l : List Char) : Nat :=
  l.foldl (fun n c => 10 * n + digitVal c) 0

/-- Drop trailing whitespace (the right half of Python `str.strip()`). -/
def dropTrailingWs (l : List Char) : List Char :=
  (l.reverse.dropWhile pyIsSpace).reverse

/-- Python `str.strip()` on the character list of a string. -/
def pyStripChars (l : List Char) : List Char :=
  dropTrailingWs (l.dropWhile pyIsSpace)

/-- `re.sub(r'\s+', " ", ·)`: replace each maximal run of whitespace by a
single space (keeping the last character of the run as the single `' '`
produces exactly the same string as replacing the whole run). -/
def collapseWs : List Char → List Char
  | [] => []
  | [c] => if pyIsSpace c then [' '] else [c]
  | c :: d :: rest =>
    if pyIsSpace c then
      if pyIsSpace d then collapseWs (d :: rest)
      else ' ' :: collapseWs (d :: rest)
    else c :: collapseWs (d :: rest)

/-- Python `str.title()` (ASCII): a letter is uppercased when the previous
character is not a letter, lowercased otherwise.  The Boolean argument
records whether the previous character was a (cased) letter. -/
def titleAux : Bool → List Char → List Char
  | _, [] => []
  | prevAlpha, c :: rest =>
    (if pyIsAlpha c then (if prevAlpha then pyToLower c else pyToUpper c) else c)
      :: titleAux (pyIsAlpha c) rest

/-- `utils.clean_student_name` (src/utils.py line 8):
`re.sub(r'\s+', " ", value).strip().title()`. -/
def clean_student_name (s : String) : String :=
  ⟨titleAux false (pyStripChars (collapseWs s.data))⟩

/-- `value.strip().upper()` as used by `convert_grade_name`. -/
def stripUpper (s : String) : String :=
  ⟨(pyStripChars s.data).map pyToUpper⟩

/-- `value.strip().upper().replace(".", "").replace(" ", "")`
(src/utils.py line 16): remove every `'.'` and `' '` after strip+upper. -/
def cleanedForm (s : String) : String :=
  ⟨((pyStripChars s.data).map pyToUpper).filter (fun c => !(c == '.' || c == ' '))⟩

/-- Nursery alias set (src/utils.py line 19). -/
def nursery_variants : List String :=
  ["NURSERY", "NURSARY", "NURSRY", "NURSEY", "NURSERRRY", "NUR"]

/-- Jr.KG alias set (src/utils.py line 20). -/
def jrkg_variants : List String :=
  ["JRKG", "JRKGCLASS", "JRKGKIDS", "JRKINDERGARTEN"]

/-- Sr.KG alias set (src/utils.py line 21). -/
def srkg_variants : List String :=
  ["SRKG", "SRKGCLASS", "SRKGKIDS", "SRKINDERGARTEN"]

/-- Roman-numeral table of `convert_grade_name` (src/utils.py lines 31-35). -/
def roman_to_number : List (String × String) :=
  [("I", "1"), ("II", "2"), ("III", "3"), ("IV", "4"), ("V", "5"),
   ("VI", "6"), ("VII", "7"), ("VIII", "8"), ("IX", "9"), ("X", "10"),
   ("XI", "11"), ("XII", "12")]

/-- The seven Roman-numeral characters of the class `[IVXLCDM]`. -/
def romanChars : List Char := ['I', 'V', 'X', 'L', 'C', 'D', 'M']

/-- Membership in the regex class `[IVXLCDM]`. -/
def romanChar (c : Char) : Bool := romanChars.contains c

/-- `re.match(r"GRADE\s+(<class>+)$", ·)`: literal `GRADE`, then one or more
whitespace characters, then a non-empty token drawn from the class `p`,
then end of string.  Greedy `\s+` followed by a non-whitespace class is
equivalent to taking the maximal whitespace run. -/
def gradeTokenMatch (p : Char → Bool) : List Char → Option (List Char)
  | 'G' :: 'R' :: 'A' :: 'D' :: 'E' :: rest =>
    let ws := rest.takeWhile pyIsSpace
    let tok := rest.dropWhile pyIsSpace
    if ws.isEmpty || tok.isEmpty || !tok.all p then none else some tok
  | _ => none

/-- `utils.convert_grade_name` (src/utils.py lines 11-53).  The `if not
value or not isinstance(value, str)` guard reduces, on strings, to the
empty-string test; non-string inputs are handled by the `PyVal` wrapper
below. -/
def convert_grade_name (s : String) : String :=
  if s.isEmpty then s
  else
    let cleaned := cleanedForm s
    if cleaned ∈ nursery_variants then "NURSERY"
    else if cleaned ∈ jrkg_variants then "JR.KG"
    else if cleaned ∈ srkg_variants then "SR.KG"
    else
      let vu := (pyStripChars s.data).map pyToUpper
      match gradeTokenMatch romanChar vu with
      | some tok =>
        match List.lookup (String.mk tok) roman_to_number with
        | some num => "GRADE " ++ num
        | none => "GRADE " ++ String.mk tok
      | none =>
        match gradeTokenMatch pyIsDigit vu with
        | some ds => "GRADE " ++ toString (digitsToNat ds)
        | none => String.mk vu

/-- Split a character list at every `'/'` (used to model the
`%d/%m/%Y` regex of CPython `_strptime`). -/
def splitSlash : List Char → List (List Char)
  | [] => [[]]
  | c :: rest =>
    if c = '/' then [] :: splitSlash rest
    else
      match splitSlash rest with
      | [] => [[c]]
      | g :: gs => (c :: g) :: gs

/-- Inverse of `splitSlash`: interleave `'/'` between the groups. -/
def joinSlash : List (List Char) → List Char
  | [] => []
  | [g] => g
  | g :: gs => g ++ '/' :: joinSlash gs

/-- CPython `_strptime` token for `%d`: the regex
`3[01]|[12]\d|0[1-9]|[1-9]`, i.e. one or two digits with value 1..31. -/
def dayTok (l : List Char) : Bool :=
  l.all pyIsDigit && (l.length == 1 || l.length == 2)
    && decide (1 ≤ digitsToNat l) && decide (digitsToNat l ≤ 31)

/-- CPython `_strptime` token for `%m`: `1[0-2]|0[1-9]|[1-9]`, i.e. one or
two digits with value 1..12. -/
def monTok (l : List Char) : Bool :=
  l.all pyIsDigit && (l.length == 1 || l.length == 2)
    && decide (1 ≤ digitsToNat l) && decide (digitsToNat l ≤ 12)

/-- CPython `_strptime` token for `%Y`: exactly four digits. -/
def yearTok (l : List Char) : Bool :=
  l.all pyIsDigit && l.length == 4

/-- Gregorian leap-year rule used by `datetime`. -/
def isLeap (y : Nat) : Bool :=
  (y % 4 == 0 && y % 100 != 0) || y % 400 == 0

/-- Length of a month as validated by the `datetime` constructor. -/
def daysInMonth (m y : Nat) : Nat :=
  match m with
  | 1 => 31 | 2 => if isLeap y then 29 else 28 | 3 => 31 | 4 => 30
  | 5 => 31 | 6 => 30 | 7 => 31 | 8 => 31 | 9 => 30 | 10 => 31
  | 11 => 30 | 12 => 31
  | _ => 0

/-- `datetime.strptime(s, '%d/%m/%Y')`: the CPython `_strptime` regex
requires the whole string to be `<day>/<month>/<year>` with the three
tokens above (the `/` literal after each token forces the token to end
exactly where the next `/` stands, so the regex match is equivalent to
this split), and the `datetime` constructor then rejects day numbers
beyond the month length and year 0. -/
def strptime_dmy (s : String) : Option (Nat × Nat × Nat) :=
  match splitSlash s.data with
  | [d, m, y] =>
    if dayTok d && monTok m && yearTok y then
      let dn := digitsToNat d
      let mn := digitsToNat m
      let yn := digitsToNat y
      if 1 ≤ yn ∧ dn ≤ daysInMonth mn yn then some (dn, mn, yn) else none
    else none
  | _ => none

/-- Zero-padded two-digit rendering (`%m`, `%d` of `strftime`). -/
def pad2 (n : Nat) : String :=
  if n < 10 then "0" ++ toString n else toString n

/-- Four-digit rendering of the year (`%Y`; the parsed year always has
four significant digits here, so padding matches `strftime`). -/
def pad4 (n : Nat) : String :=
  if n < 10 then "000" ++ toString n
  else if n < 100 then "00" ++ toString n
  else if n < 1000 then "0" ++ toString n
  else toString n

/-- `utils.format_date_column` (src/utils.py lines 55-61): reformat on
parse success, return the original string on `ValueError`. -/
def format_date_column (s : String) : String :=
  match strptime_dmy s with
  | some (d, m, y) => pad4 y ++ "-" ++ pad2 m ++ "-" ++ pad2 d
  | none => s

/-- Male synonym set of `clean_gender` (src/utils.py line 70). -/
def male_values : List String := ["male", "m", "man", "boy", "masculine"]

/-- Female synonym set of `clean_gender` (src/utils.py line 71). -/
def female_values : List String := ["female", "f", "woman", "girl", "feminine"]

/-- `value.strip().lower()` as used by `clean_gender`. -/
def stripLower (s : String) : String :=
  ⟨(pyStripChars s.data).map pyToLower⟩

/-- `utils.clean_gender` (src/utils.py lines 63-79) on strings; the
falsy/type guard returns the value unchanged for the empty string. -/
def clean_gender (s : String) : String :=
  if s.isEmpty then s
  else if stripLower s ∈ male_values then "M"
  else if stripLower s ∈ female_values then "F"
  else s

/-- `utils.extract_division` (src/utils.py lines 81-85):
`re.search(r'[A-Za-z]+', value)` returns the first maximal run of
letters; if there is none, the raw value is returned. -/
def extract_division (s : String) : String :=
  match s.data.dropWhile (fun c => !pyIsAlpha c) with
  | [] => s
  | rest => ⟨rest.takeWhile pyIsAlpha⟩

/-- A Python value as it can reach the field normalizers: `None`, a
string, or a non-string scalar (numbers etc., which the normalizers only
ever inspect through `isinstance(value, str)` and truthiness). -/
inductive PyVal where
  | none : PyVal
  | str : String → PyVal
  | num : Int → PyVal
deriving DecidableEq, Repr

/-- Truthiness of a `PyVal` (`not value` in the guards). -/
def PyVal.truthy : PyVal → Bool
  | .none => false
  | .str s => !s.isEmpty
  | .num n => n != 0

/-- `clean_student_name` on an arbitrary Python value: `re.sub` raises
`TypeError` on `None` and non-string input (there is no guard). -/
def clean_student_name_py : PyVal → Except Unit PyVal
  | .str s => .ok (.str (clean_student_name s))
  | _ => .error ()

/-- `convert_grade_name` on an arbitrary Python value: the guard returns
falsy and non-string values unchanged, so the function never raises. -/
def convert_grade_name_py : PyVal → Except Unit PyVal
  | .str s => .ok (.str (convert_grade_name s))
  | v => .ok v

/-- `format_date_column` on an arbitrary Python value: `strptime` raises
`TypeError` (not `ValueError`, the only caught class) on `None` and
non-string input. -/
def format_date_column_py : PyVal → Except Unit PyVal
  | .str s => .ok (.str (format_date_column s))
  | _ => .error ()

/-- `clean_gender` on an arbitrary Python value: the guard returns falsy
and non-string values unchanged, so the function never raises. -/
def clean_gender_py : PyVal → Except Unit PyVal
  | .str s => .ok (.str (clean_gender s))
  | v => .ok v

/-- `extract_division` on an arbitrary Python value: `re.search` raises
`TypeError` on `None` and non-string input (there is no guard in
src/utils.py). -/
def extract_division_py : PyVal → Except Unit PyVal
  | .str s => .ok (.str (extract_division s))
  | _ => .error ()

/-- A normalizer call that did not raise. -/
def pyOk : Except Unit PyVal → Bool
  | .ok _ => true
  | .error _ => false

/-- One attendance record (one row of the dataframe handed to the
reconciliation steps), with the columns of
`student_attendance_data`.  `attendance_percentage` is modelled as an
integer-ordered value: the duplicate resolver only ever compares it. -/
structure Row where
  school_name : String
  grade_name : String
  division_name : String
  course_name : String
  student_id : String
  student_name : String
  academic_year : String
  gender : String
  month : String
  date : String
  no_of_working_days : Int
  no_of_present_days : Int
  attendance_percentage : Int
  student_attendance_data_unique_key : String
deriving DecidableEq, Repr

/-- Natural-identity tuple: the `subset_cols`
`['student_id', 'student_name', 'gender', 'school_name']` of
`deduplicate_by_studentid` (src/utils.py line 97). -/
def natKeyTup (r : Row) : String × String × String × String :=
  (r.student_id, r.student_name, r.gender, r.school_name)

/-- Identity-key derivation (src/api.py lines 64-67):
`f"{academic_year}|{month}|{school_name}|{grade_name}|{student_id}"`. -/
def makeUniqueKey (r : Row) : String :=
  r.academic_year ++ "|" ++ r.month ++ "|" ++ r.school_name ++ "|"
    ++ r.grade_name ++ "|" ++ r.student_id

/-- Store the derived identity key on the record (the
`df['student_attendance_data_unique_key'] = df.apply(...)` step). -/
def attachKey (r : Row) : Row :=
  { r with student_attendance_data_unique_key := makeUniqueKey r }

/-- Retain decision of the incremental filter: keep a record when its
identity key is not among the keys already in the store
(`~df['student_attendance_data_unique_key'].isin(unique_keys_from_mysql)`,
src/api.py line 73). -/
def keepNew (existing : List String) (r : Row) : Bool :=
  !(existing.contains r.student_attendance_data_unique_key)

/-- The incremental filter itself. -/
def filter_new (df : List Row) (existing : List String) : List Row :=
  df.filter (keepNew existing)

/-- Three-way comparison of character lists by code point, the order
Python uses for strings. -/
def listCharCmp : List Char → List Char → Ordering
  | [], [] => .eq
  | [], _ :: _ => .lt
  | _ :: _, [] => .gt
  | a :: as, b :: bs =>
    if a < b then .lt
    else if b < a then .gt
    else listCharCmp as bs

/-- Lexicographic comparison of equal-length lists of strings, the order
`sort_values` uses on a column tuple. -/
def lexListCmp : List (List Char) → List (List Char) → Ordering
  | [], [] => .eq
  | [], _ :: _ => .lt
  | _ :: _, [] => .gt
  | a :: as, b :: bs =>
    match listCharCmp a b with
    | .eq => lexListCmp as bs
    | o => o

/-- The four sort columns of `deduplicate_by_studentid`, in order. -/
def keyFields (r : Row) : List (List Char) :=
  [r.student_id.data, r.student_name.data, r.gender.data, r.school_name.data]

/-- Comparison of two rows on the natural-identity columns. -/
def keyCmp (a b : Row) : Ordering :=
  lexListCmp (keyFields a) (keyFields b)

/-- Sort relation of `df_duplicates.sort_values(by=subset_cols +
['attendance_percentage'], ascending=[True, True, True, True, False])`
(src/utils.py lines 108-112): natural-identity columns ascending, then
attendance descending. -/
def rowLe (a b : Row) : Bool :=
  match keyCmp a b with
  | .lt => true
  | .gt => false
  | .eq => decide (b.attendance_percentage ≤ a.attendance_percentage)

/-- The sort relation as a `Prop` for `List.insertionSort`. -/
def rowLeP (a b : Row) : Prop := rowLe a b = true

instance : DecidableRel rowLeP := fun a b =>
  inferInstanceAs (Decidable (rowLe a b = true))

/-- `drop_duplicates(subset=subset_cols, keep='first')`: keep each row
whose natural-identity tuple has not been seen at an earlier position. -/
def keepFirstByKey : List Row → List (String × String × String × String) → List Row
  | [], _ => []
  | r :: rs, seen =>
    if natKeyTup r ∈ seen then keepFirstByKey rs seen
    else r :: keepFirstByKey rs (natKeyTup r :: seen)

/-- Number of rows of `df` with natural-identity tuple `k`. -/
def keyCount (df : List Row) (k : String × String × String × String) : Nat :=
  df.countP (fun s => decide (natKeyTup s = k))

/-- `df.duplicated(subset=subset_cols, keep=False)` on one row: true when
the natural-identity tuple of the row occurs at least twice in `df`. -/
def dupRow (df : List Row) (r : Row) : Bool :=
  decide (2 ≤ keyCount df (natKeyTup r))

/-- The deduplicated duplicate block `df_deduped` of
`deduplicate_by_studentid`: sort the duplicated rows (natural identity
ascending, attendance descending) and keep the first row of each tuple. -/
def dupWinners (df : List Row) : List Row :=
  keepFirstByKey ((df.filter (dupRow df)).insertionSort rowLeP) []

/-- `utils.deduplicate_by_studentid` (src/utils.py lines 95-136):
rows whose natural-identity tuple occurs once pass through in order;
rows with a duplicated tuple are sorted (identity ascending, attendance
descending), the first of each tuple kept, and the winners appended
after the non-duplicated rows (`pd.concat([df_non_duplicates,
df_deduped])`).  The grouped logging of the source does not change the
result and is not modelled. -/
def deduplicate_by_studentid (df : List Row) : List Row :=
  df.filter (fun r => !(dupRow df r)) ++ dupWinners df

/-- Record pipeline of `fetch_data_from_api_and_process` from key
derivation to the set handed to persistence (src/api.py lines 63-80):
attach identity keys, drop records whose key is already stored, then
deduplicate the (non-empty) remainder. -/
def reconcile_records (df : List Row) (existing : List String) : List Row :=
  let keyed := df.map attachKey
  let new_data := filter_new keyed existing
  if new_data.isEmpty then new_data else deduplicate_by_studentid new_data

/-- Outcome of one `cursor.execute` of the insert statement: success,
MySQL error 1062 (duplicate key), or any other database error. -/
inductive Outcome where
  | inserted : Outcome
  | dupKey : Outcome
  | hardError : Outcome
deriving DecidableEq, Repr

/-- Counters of `fetch_data_from_api_and_process` that the insert loop
touches (the fetch-side and timing counters are I/O observations and are
not part of the core model). -/
structure Stats where
  new_records_to_process : Nat
  duplicates_removed : Nat
  new_records_inserted : Nat
  duplicate_records_skipped : Nat
  error_records : Nat
deriving DecidableEq, Repr

/-- All-zero counters (the dict initialisation of the source). -/
def Stats.init : Stats :=
  { new_records_to_process := 0, duplicates_removed := 0,
    new_records_inserted := 0, duplicate_records_skipped := 0,
    error_records := 0 }

/-- Result of the row loop of `insert_data_to_mysql`: counts of inserted
and duplicate-skipped rows, how many rows were attempted (reached
`cursor.execute`), and whether a non-1062 error aborted the loop via
`raise`. -/
structure InsertResult where
  ins : Nat
  dup : Nat
  attempted : Nat
  aborted : Bool
deriving DecidableEq, Repr

/-- The `for _, row in df.iterrows()` loop of `insert_data_to_mysql`
(src/student_attendance_monthly.py lines 242-257), with the per-row
outcome supplied by the database collaborator `persist`.  A non-1062
error re-raises, so no later row is attempted. -/
def insertRows (persist : Row → Outcome) : List Row → InsertResult
  | [] => { ins := 0, dup := 0, attempted := 0, aborted := false }
  | r :: rs =>
    match persist r with
    | .hardError => { ins := 0, dup := 0, attempted := 1, aborted := true }
    | .inserted =>
      let t := insertRows persist rs
      { t with ins := t.ins + 1, attempted := t.attempted + 1 }
    | .dupKey =>
      let t := insertRows persist rs
      { t with dup := t.dup + 1, attempted := t.attempted + 1 }

/-- `insert_data_to_mysql` (src/student_attendance_monthly.py lines
227-275).  On a clean loop the three counters are written from the loop
totals (the error count there is necessarily 0: any non-1062 error
raises before being stored).  When the re-raised error reaches the outer
handler, only `error_records` is written, to `len(df)`; the inserted and
skipped counters keep the values the caller initialised. -/
def insert_data_to_mysql (persist : Row → Outcome) (df : List Row)
    (stats : Stats) : Stats :=
  let t := insertRows persist df
  if t.aborted then { stats with error_records := df.length }
  else
    { stats with new_records_inserted := t.ins,
                 duplicate_records_skipped := t.dup,
                 error_records := 0 }

/-- Stats pipeline of `fetch_data_from_api_and_process`
(src/student_attendance_monthly.py lines 336-363) from key derivation
on: count the new candidates, deduplicate a non-empty candidate set and
count the removed rows, then run the insert loop on a non-empty result. -/
def fetch_data_from_api_and_process (df : List Row) (existing : List String)
    (persist : Row → Outcome) : Stats :=
  let keyed := df.map attachKey
  let new_data := filter_new keyed existing
  let s0 : Stats := { Stats.init with new_records_to_process := new_data.length }
  let step :=
    if new_data.isEmpty then (new_data, s0)
    else
      let dd := deduplicate_by_studentid new_data
      (dd, { s0 with duplicates_removed := new_data.length - dd.length })
  if step.1.isEmpty then step.2
  else insert_data_to_mysql persist step.1 step.2

/-! Concrete example records used by witnesses and counterexamples -/

/-- Build one attendance record from the fields the claims vary. -/
def mkRow (sid nm g sc gr yr mo : String) (att : Int) : Row :=
  { school_name := sc, grade_name := gr, division_name := "A",
    course_name := "Course", student_id := sid, student_name := nm,
    academic_year := yr, gender := g, month := mo, date := "2024-05-01",
    no_of_working_days := 20, no_of_present_days := 18,
    attendance_percentage := att, student_attendance_data_unique_key := "" }

/-- Duplicate-group member with the higher attendance. -/
def d1 : Row := mkRow "S1" "Anil" "M" "X" "GRADE 4" "2024-2025" "May" 60

/-- Duplicate-group member with the lower attendance (same natural
identity as `d1`, different grade label). -/
def d2 : Row := mkRow "S1" "Anil" "M" "X" "GRADE 5" "2024-2025" "May" 50

/-- Record with a natural identity of its own. -/
def d3 : Row := mkRow "S2" "Binu" "F" "X" "GRADE 4" "2024-2025" "May" 70

/-- Same identity-key fields as `c1RowB` but a different student name. -/
def c1RowA : Row := mkRow "S1" "Anil" "M" "X" "GRADE 4" "2024-2025" "May" 60

/-- Same identity-key fields as `c1RowA` but a different student name. -/
def c1RowB : Row := mkRow "S1" "Ankit" "M" "X" "GRADE 4" "2024-2025" "May" 50

/-- Persistence oracle that inserts `d1` and fails hard on any other row. -/
def c8persist : Row → Outcome := fun r => if r = d1 then .inserted else .hardError

/-! Order-theoretic facts about the duplicate-resolver sort relation -/

theorem listCharCmp_eq_iff : ∀ (a b : List Char), listCharCmp a b = .eq ↔ a = b
  | [], [] => by simp [listCharCmp]
  | [], _ :: _ => by simp [listCharCmp]
  | _ :: _, [] => by simp [listCharCmp]
  | x :: as, y :: bs => by
    simp only [listCharCmp]
    rcases lt_trichotomy x y with h | h | h
    · rw [if_pos h]
      simp only [reduceCtorEq, false_iff, ne_eq]
      intro hc
      injection hc with h1 _
      exact absurd h1 (ne_of_lt h)
    · subst h
      rw [if_neg (lt_irrefl x), if_neg (lt_irrefl x)]
      rw [listCharCmp_eq_iff as bs]
      simp
    · rw [if_neg (not_lt_of_gt h), if_pos h]
      simp only [reduceCtorEq, false_iff, ne_eq]
      intro hc
      injection hc with h1 _
      exact absurd h1.symm (ne_of_lt h)

theorem listCharCmp_gt_iff : ∀ (a b : List Char), listCharCmp a b = .gt ↔ listCharCmp b a = .lt
  | [], [] => by simp [listCharCmp]
  | [], _ :: _ => by simp [listCharCmp]
  | _ :: _, [] => by simp [listCharCmp]
  | x :: as, y :: bs => by
    simp only [listCharCmp]
    rcases lt_trichotomy x y with h | h | h
    · rw [if_pos h, if_neg (not_lt_of_gt h), if_pos h]
      simp
    · subst h
      rw [if_neg (lt_irrefl x), if_neg (lt_irrefl x), if_neg (lt_irrefl x),
        if_neg (lt_irrefl x)]
      exact listCharCmp_gt_iff as bs
    · rw [if_neg (not_lt_of_gt h), if_pos h, if_pos h]
      simp

theorem listCharCmp_lt_trans :
    ∀ {a b c : List Char}, listCharCmp a b = .lt → listCharCmp b c = .lt →
      listCharCmp a c = .lt
  | [], [], _ :: _, _, _ => rfl
  | [], _ :: _, _ :: _, _, _ => rfl
  | x :: as, y :: bs, z :: cs, h1, h2 => by
    simp only [listCharCmp] at h1 h2 ⊢
    rcases lt_trichotomy x y with hxy | hxy | hxy
    · rcases lt_trichotomy y z with hyz | hyz | hyz
      · rw [if_pos (lt_trans hxy hyz)]
      · subst hyz; rw [if_pos hxy]
      · rw [if_neg (not_lt_of_gt hyz), if_pos hyz] at h2; cases h2
    · subst hxy
      rcases lt_trichotomy x z with hyz | hyz | hyz
      · rw [if_pos hyz]
      · subst hyz
        rw [if_neg (lt_irrefl x), if_neg (lt_irrefl x)] at h1 h2 ⊢
        exact listCharCmp_lt_trans h1 h2
      · rw [if_neg (not_lt_of_gt hyz), if_pos hyz] at h2; cases h2
    · rw [if_neg (not_lt_of_gt hxy), if_pos hxy] at h1; cases h1

theorem lexListCmp_cons_of_lt {x y : List Char} (as bs : List (List Char))
    (h : listCharCmp x y = .lt) : lexListCmp (x :: as) (y :: bs) = .lt := by
  simp [lexListCmp, h]

theorem lexListCmp_cons_of_gt {x y : List Char} (as bs : List (List Char))
    (h : listCharCmp x y = .gt) : lexListCmp (x :: as) (y :: bs) = .gt := by
  simp [lexListCmp, h]

theorem lexListCmp_cons_of_eq {x y : List Char} (as bs : List (List Char))
    (h : listCharCmp x y = .eq) : lexListCmp (x :: as) (y :: bs) = lexListCmp as bs := by
  simp [lexListCmp, h]

theorem lexListCmp_eq_iff : ∀ (a b : List (List Char)), lexListCmp a b = .eq ↔ a = b
  | [], [] => by simp [lexListCmp]
  | [], _ :: _ => by simp [lexListCmp]
  | _ :: _, [] => by simp [lexListCmp]
  | x :: as, y :: bs => by
    cases hxy : listCharCmp x y with
    | eq =>
      have hx : x = y := (listCharCmp_eq_iff x y).mp hxy
      rw [lexListCmp_cons_of_eq as bs hxy, lexListCmp_eq_iff as bs]
      constructor
      · intro h; rw [hx, h]
      · intro h; injection h
    | lt =>
      rw [lexListCmp_cons_of_lt as bs hxy]
      constructor
      · intro h; exact absurd h (by decide)
      · intro h
        injection h with h1 _
        rw [h1, (listCharCmp_eq_iff y y).mpr rfl] at hxy
        exact absurd hxy (by decide)
    | gt =>
      rw [lexListCmp_cons_of_gt as bs hxy]
      constructor
      · intro h; exact absurd h (by decide)
      · intro h
        injection h with h1 _
        rw [h1, (listCharCmp_eq_iff y y).mpr rfl] at hxy
        exact absurd hxy (by decide)

theorem lexListCmp_gt_iff :
    ∀ (a b : List (List Char)), lexListCmp a b = .gt ↔ lexListCmp b a = .lt
  | [], [] => by simp [lexListCmp]
  | [], _ :: _ => by simp [lexListCmp]
  | _ :: _, [] => by simp [lexListCmp]
  | x :: as, y :: bs => by
    cases hxy : listCharCmp x y with
    | eq =>
      have hyx : listCharCmp y x = .eq :=
        (listCharCmp_eq_iff y x).mpr ((listCharCmp_eq_iff x y).mp hxy).symm
      rw [lexListCmp_cons_of_eq as bs hxy, lexListCmp_cons_of_eq bs as hyx]
      exact lexListCmp_gt_iff as bs
    | lt =>
      have hyx : listCharCmp y x = .gt := (listCharCmp_gt_iff y x).mpr hxy
      rw [lexListCmp_cons_of_lt as bs hxy, lexListCmp_cons_of_gt bs as hyx]
      decide
    | gt =>
      have hyx : listCharCmp y x = .lt := (listCharCmp_gt_iff x y).mp hxy
      rw [lexListCmp_cons_of_gt as bs hxy, lexListCmp_cons_of_lt bs as hyx]
      decide

theorem lexListCmp_lt_trans :
    ∀ {a b c : List (List Char)}, lexListCmp a b = .lt → lexListCmp b c = .lt →
      lexListCmp a c = .lt
  | [], [], _ :: _, _, _ => rfl
  | [], _ :: _, _ :: _, _, _ => rfl
  | x :: as, y :: bs, z :: cs, h1, h2 => by
    cases hxy : listCharCmp x y with
    | gt => rw [lexListCmp_cons_of_gt as bs hxy] at h1; exact absurd h1 (by decide)
    | eq =>
      have hx : x = y := (listCharCmp_eq_iff x y).mp hxy
      rw [lexListCmp_cons_of_eq as bs hxy] at h1
      cases hyz : listCharCmp y z with
      | gt => rw [lexListCmp_cons_of_gt bs cs hyz] at h2; exact absurd h2 (by decide)
      | eq =>
        have hz : y = z := (listCharCmp_eq_iff y z).mp hyz
        rw [lexListCmp_cons_of_eq bs cs hyz] at h2
        have hxz : listCharCmp x z = .eq := (listCharCmp_eq_iff x z).mpr (hx.trans hz)
        rw [lexListCmp_cons_of_eq as cs hxz]
        exact lexListCmp_lt_trans h1 h2
      | lt =>
        have hxz : listCharCmp x z = .lt := by rw [hx]; exact hyz
        rw [lexListCmp_cons_of_lt as cs hxz]
    | lt =>
      cases hyz : listCharCmp y z with
      | gt => rw [lexListCmp_cons_of_gt bs cs hyz] at h2; exact absurd h2 (by decide)
      | eq =>
        have hy : y = z := (listCharCmp_eq_iff y z).mp hyz
        have hxz : listCharCmp x z = .lt := by rw [← hy]; exact hxy
        rw [lexListCmp_cons_of_lt as cs hxz]
      | lt => rw [lexListCmp_cons_of_lt as cs (listCharCmp_lt_trans hxy hyz)]


theorem keyFields_eq_iff {a b : Row} : keyFields a = keyFields b ↔ natKeyTup a = natKeyTup b := by
  simp only [keyFields, natKeyTup, Prod.mk.injEq, List.cons.injEq, and_true,
    ← String.ext_iff]

theorem keyCmp_eq_iff {a b : Row} : keyCmp a b = .eq ↔ natKeyTup a = natKeyTup b := by
  rw [keyCmp, lexListCmp_eq_iff, keyFields_eq_iff]

theorem keyCmp_gt_iff {a b : Row} : keyCmp a b = .gt ↔ keyCmp b a = .lt :=
  lexListCmp_gt_iff _ _

theorem keyCmp_lt_trans {a b c : Row} (h1 : keyCmp a b = .lt) (h2 : keyCmp b c = .lt) :
    keyCmp a c = .lt :=
  lexListCmp_lt_trans h1 h2

theorem keyCmp_congr_right {a b c : Row} (h : natKeyTup b = natKeyTup c) :
    keyCmp a b = keyCmp a c := by
  rw [keyCmp, keyCmp, keyFields_eq_iff.mpr h]

theorem keyCmp_congr_left {a b c : Row} (h : natKeyTup a = natKeyTup b) :
    keyCmp a c = keyCmp b c := by
  rw [keyCmp, keyCmp, keyFields_eq_iff.mpr h]

theorem rowLe_total (a b : Row) : rowLeP a b ∨ rowLeP b a := by
  unfold rowLeP rowLe
  cases h : keyCmp a b with
  | lt => exact Or.inl rfl
  | gt =>
    right
    rw [keyCmp_gt_iff.mp h]
  | eq =>
    have h2 : keyCmp b a = .eq := keyCmp_eq_iff.mpr (keyCmp_eq_iff.mp h).symm
    rw [h2]
    rcases Int.le_total a.attendance_percentage b.attendance_percentage with h3 | h3
    · right; simpa using h3
    · left; simpa using h3

theorem rowLe_trans {a b c : Row} (h1 : rowLeP a b) (h2 : rowLeP b c) : rowLeP a c := by
  unfold rowLeP rowLe at h1 h2 ⊢
  cases hab : keyCmp a b with
  | gt => rw [hab] at h1; cases h1
  | lt =>
    cases hbc : keyCmp b c with
    | gt => rw [hbc] at h2; cases h2
    | lt => rw [keyCmp_lt_trans hab hbc]
    | eq =>
      rw [keyCmp_congr_right (keyCmp_eq_iff.mp hbc)] at hab
      rw [hab]
  | eq =>
    rw [hab] at h1
    cases hbc : keyCmp b c with
    | gt => rw [hbc] at h2; cases h2
    | lt => rw [keyCmp_congr_left (keyCmp_eq_iff.mp hab), hbc]
    | eq =>
      rw [hbc] at h2
      have hac : keyCmp a c = .eq :=
        keyCmp_eq_iff.mpr ((keyCmp_eq_iff.mp hab).trans (keyCmp_eq_iff.mp hbc))
      rw [hac]
      simp only [decide_eq_true_eq] at h1 h2 ⊢
      exact le_trans h2 h1

instance : IsTotal Row rowLeP := ⟨rowLe_total⟩

instance : IsTrans Row rowLeP := ⟨fun _ _ _ => rowLe_trans⟩

theorem rowLeP_of_key_eq {a b : Row} (h : natKeyTup a = natKeyTup b)
    (hatt : b.attendance_percentage ≤ a.attendance_percentage) : rowLeP a b := by
  unfold rowLeP rowLe
  rw [keyCmp_eq_iff.mpr h]
  simpa using hatt

theorem att_le_of_rowLeP {a b : Row} (h : rowLeP a b) (hk : natKeyTup a = natKeyTup b) :
    b.attendance_percentage ≤ a.attendance_percentage := by
  unfold rowLeP rowLe at h
  rw [keyCmp_eq_iff.mpr hk] at h
  simpa using h

theorem keyCmp_lt_of_rowLeP {a b : Row} (h : rowLeP a b) (hk : natKeyTup a ≠ natKeyTup b) :
    keyCmp a b = .lt := by
  unfold rowLeP rowLe at h
  cases hc : keyCmp a b with
  | lt => rfl
  | gt => rw [hc] at h; cases h
  | eq => exact absurd (keyCmp_eq_iff.mp hc) hk

/-! Structure of `keepFirstByKey` (`drop_duplicates(keep='first')`) -/

theorem keepFirstByKey_sublist : ∀ (l : List Row) (seen), (keepFirstByKey l seen).Sublist l
  | [], _ => List.Sublist.refl []
  | r :: rs, seen => by
    simp only [keepFirstByKey]
    by_cases h : natKeyTup r ∈ seen
    · rw [if_pos h]
      exact (keepFirstByKey_sublist rs seen).cons r
    · rw [if_neg h]
      exact (keepFirstByKey_sublist rs _).cons₂ r

theorem mem_keepFirstByKey :
    ∀ {l : List Row} {seen r}, r ∈ keepFirstByKey l seen → r ∈ l ∧ natKeyTup r ∉ seen := by
  intro l
  induction l with
  | nil => intro seen r h; exact absurd h (List.not_mem_nil r)
  | cons x rs ih =>
    intro seen r h
    simp only [keepFirstByKey] at h
    by_cases hx : natKeyTup x ∈ seen
    · rw [if_pos hx] at h
      obtain ⟨h1, h2⟩ := ih h
      exact ⟨List.mem_cons_of_mem x h1, h2⟩
    · rw [if_neg hx] at h
      rcases List.mem_cons.mp h with h1 | h1
      · subst h1; exact ⟨List.mem_cons_self r rs, hx⟩
      · obtain ⟨h2, h3⟩ := ih h1
        refine ⟨List.mem_cons_of_mem x h2, fun hc => h3 ?_⟩
        exact List.mem_cons_of_mem _ hc

theorem keepFirstByKey_pairwise :
    ∀ (l : List Row) (seen),
      (keepFirstByKey l seen).Pairwise (fun a b => natKeyTup a ≠ natKeyTup b) := by
  intro l
  induction l with
  | nil => intro seen; exact List.Pairwise.nil
  | cons x rs ih =>
    intro seen
    simp only [keepFirstByKey]
    by_cases hx : natKeyTup x ∈ seen
    · rw [if_pos hx]; exact ih seen
    · rw [if_neg hx]
      rw [List.pairwise_cons]
      refine ⟨fun b hb hc => ?_, ih _⟩
      have := (mem_keepFirstByKey hb).2
      exact this (by rw [← hc]; exact List.mem_cons_self _ _)

theorem exists_mem_keepFirstByKey :
    ∀ (l : List Row) (seen k), k ∉ seen → (∃ r ∈ l, natKeyTup r = k) →
      ∃ r ∈ keepFirstByKey l seen, natKeyTup r = k := by
  intro l
  induction l with
  | nil => intro seen k _ h; exact absurd h (by simp)
  | cons x rs ih =>
    intro seen k hk hex
    simp only [keepFirstByKey]
    by_cases hx : natKeyTup x ∈ seen
    · rw [if_pos hx]
      apply ih seen k hk
      obtain ⟨r, hr, hkr⟩ := hex
      rcases List.mem_cons.mp hr with h1 | h1
      · subst h1; exact absurd (hkr ▸ hx) hk
      · exact ⟨r, h1, hkr⟩
    · rw [if_neg hx]
      by_cases hxk : natKeyTup x = k
      · exact ⟨x, List.mem_cons_self _ _, hxk⟩
      · obtain ⟨r, hr, hkr⟩ := hex
        rcases List.mem_cons.mp hr with h1 | h1
        · subst h1; exact absurd hkr hxk
        · have hk' : k ∉ natKeyTup x :: seen := by
            intro hc
            rcases List.mem_cons.mp hc with h | h
            · exact hxk h.symm
            · exact hk h
          obtain ⟨r', hr', hkr'⟩ := ih (natKeyTup x :: seen) k hk' ⟨r, h1, hkr⟩
          exact ⟨r', List.mem_cons_of_mem _ hr', hkr'⟩

theorem keepFirstByKey_max :
    ∀ (l : List Row) (seen), l.Pairwise rowLeP →
      ∀ r ∈ keepFirstByKey l seen, ∀ s ∈ l, natKeyTup s = natKeyTup r →
        s.attendance_percentage ≤ r.attendance_percentage := by
  intro l
  induction l with
  | nil => intro seen _ r hr; exact absurd hr (List.not_mem_nil r)
  | cons x rs ih =>
    intro seen hp r hr s hs hkey
    obtain ⟨hx_le, hp'⟩ := List.pairwise_cons.mp hp
    simp only [keepFirstByKey] at hr
    by_cases hx : natKeyTup x ∈ seen
    · rw [if_pos hx] at hr
      have hrkey := (mem_keepFirstByKey hr).2
      rcases List.mem_cons.mp hs with h1 | h1
      · subst h1
        exact absurd (hkey ▸ hx) hrkey
      · exact ih seen hp' r hr s h1 hkey
    · rw [if_neg hx] at hr
      rcases List.mem_cons.mp hr with h1 | h1
      · subst h1
        rcases List.mem_cons.mp hs with h2 | h2
        · subst h2; exact le_refl _
        · exact att_le_of_rowLeP (hx_le s h2) hkey.symm
      · have hrkey := (mem_keepFirstByKey h1).2
        rcases List.mem_cons.mp hs with h2 | h2
        · subst h2
          exact absurd (by rw [hkey]; exact List.mem_cons_self _ _) hrkey
        · exact ih _ hp' r h1 s h2 hkey

/-! Structure of the duplicate resolver -/

theorem keyCount_pos_of_mem {df : List Row} {r : Row} (h : r ∈ df) :
    1 ≤ keyCount df (natKeyTup r) :=
  List.countP_pos_iff.mpr ⟨r, h, by simp⟩

theorem keyCount_le_one_of_pairwise :
    ∀ {m : List Row}, m.Pairwise (fun a b => natKeyTup a ≠ natKeyTup b) →
      ∀ k, keyCount m k ≤ 1 := by
  intro m
  induction m with
  | nil => intro _ k; simp [keyCount]
  | cons x xs ih =>
    intro hp k
    obtain ⟨hx, hp'⟩ := List.pairwise_cons.mp hp
    rw [keyCount, List.countP_cons]
    by_cases hxk : natKeyTup x = k
    · have hz : List.countP (fun s => decide (natKeyTup s = k)) xs = 0 := by
        rw [List.countP_eq_zero]
        intro y hy
        simp only [decide_eq_true_eq]
        intro hyk
        exact hx y hy (by rw [hxk, hyk])
      simp [hz, hxk]
    · have hrest := ih hp' k
      rw [keyCount] at hrest
      have hif : (if decide (natKeyTup x = k) = true then 1 else 0) = 0 := by
        simp [hxk]
      rw [hif]
      omega

theorem mem_dupWinners {df : List Row} {r : Row} (h : r ∈ dupWinners df) :
    r ∈ df ∧ 2 ≤ keyCount df (natKeyTup r) := by
  obtain ⟨hmem, -⟩ := mem_keepFirstByKey h
  rw [List.mem_insertionSort] at hmem
  obtain ⟨hdf, hp⟩ := List.mem_filter.mp hmem
  rw [dupRow, decide_eq_true_eq] at hp
  exact ⟨hdf, hp⟩

theorem dupWinners_pairwise (df : List Row) :
    (dupWinners df).Pairwise (fun a b => natKeyTup a ≠ natKeyTup b) :=
  keepFirstByKey_pairwise _ _

theorem dupWinners_max {df : List Row} {r : Row} (h : r ∈ dupWinners df) :
    ∀ s ∈ df, natKeyTup s = natKeyTup r →
      s.attendance_percentage ≤ r.attendance_percentage := by
  intro s hs hk
  have hsorted : ((df.filter (dupRow df)).insertionSort rowLeP).Pairwise rowLeP :=
    List.sorted_insertionSort rowLeP _
  have hsf : s ∈ df.filter (dupRow df) := by
    refine List.mem_filter.mpr ⟨hs, ?_⟩
    rw [dupRow, decide_eq_true_eq, keyCount, hk]
    exact (mem_dupWinners h).2
  exact keepFirstByKey_max _ [] hsorted r h s ((List.mem_insertionSort _).mpr hsf) hk

theorem exists_dupWinner {df : List Row} {k} (hex : ∃ r ∈ df, natKeyTup r = k)
    (h2 : 2 ≤ keyCount df k) : ∃ r ∈ dupWinners df, natKeyTup r = k := by
  apply exists_mem_keepFirstByKey _ _ k (List.not_mem_nil k)
  obtain ⟨r, hr, hk⟩ := hex
  refine ⟨r, (List.mem_insertionSort _).mpr (List.mem_filter.mpr ⟨hr, ?_⟩), hk⟩
  rw [dupRow, decide_eq_true_eq, keyCount, hk]
  exact h2

theorem dupWinners_sorted (df : List Row) :
    (dupWinners df).Pairwise (fun a b => keyCmp a b = .lt) := by
  have hsorted : ((df.filter (dupRow df)).insertionSort rowLeP).Pairwise rowLeP :=
    List.sorted_insertionSort rowLeP _
  have hle : (dupWinners df).Pairwise rowLeP :=
    List.Pairwise.sublist (keepFirstByKey_sublist _ _) hsorted
  exact (hle.and (dupWinners_pairwise df)).imp
    (fun h => keyCmp_lt_of_rowLeP h.1 h.2)

theorem pairwise_ne_of_count_le_one (df : List Row) :
    ∀ (m : List Row), m.Sublist df → (∀ r ∈ m, keyCount df (natKeyTup r) ≤ 1) →
      m.Pairwise (fun a b => natKeyTup a ≠ natKeyTup b) := by
  intro m
  induction m with
  | nil => intro _ _; exact List.Pairwise.nil
  | cons x m' ih =>
    intro hsub hcnt
    rw [List.pairwise_cons]
    constructor
    · intro y hy hkey
      have hxy : List.Sublist [x, y] df :=
        List.Sublist.trans ((List.singleton_sublist.mpr hy).cons₂ x) hsub
      have h2 : 2 ≤ keyCount df (natKeyTup x) := by
        have hc : List.countP (fun s => decide (natKeyTup s = natKeyTup x)) [x, y] = 2 := by
          simp [hkey]
        rw [keyCount, ← hc]
        exact hxy.countP_le _
      have := hcnt x (List.mem_cons_self x m')
      omega
    · exact ih (List.Sublist.trans (List.sublist_cons_self x m') hsub)
        (fun r hr => hcnt r (List.mem_cons_of_mem _ hr))

theorem uniques_pairwise (df : List Row) :
    (df.filter (fun r => !(dupRow df r))).Pairwise
      (fun a b => natKeyTup a ≠ natKeyTup b) := by
  apply pairwise_ne_of_count_le_one df _ (List.filter_sublist df)
  intro r hr
  have hp := (List.mem_filter.mp hr).2
  simp only [dupRow, Bool.not_eq_true', decide_eq_false_iff_not, not_le] at hp
  omega

theorem mem_uniques_count {df : List Row} {r : Row}
    (h : r ∈ df.filter (fun r => !(dupRow df r))) : keyCount df (natKeyTup r) = 1 := by
  obtain ⟨hdf, hp⟩ := List.mem_filter.mp h
  have h1 := keyCount_pos_of_mem hdf
  simp only [dupRow, Bool.not_eq_true', decide_eq_false_iff_not, not_le] at hp
  omega

theorem dedup_length_le (df : List Row) :
    (deduplicate_by_studentid df).length ≤ df.length := by
  rw [deduplicate_by_studentid, List.length_append]
  have h1 : (dupWinners df).length ≤ (df.filter (dupRow df)).length := by
    have hlen := (keepFirstByKey_sublist
      ((df.filter (dupRow df)).insertionSort rowLeP) []).length_le
    rwa [(List.perm_insertionSort rowLeP _).length_eq] at hlen
  have h2 : df.length = (df.filter (dupRow df)).length
      + (df.filter (fun r => !(dupRow df r))).length := by
    rw [← List.countP_eq_length_filter, ← List.countP_eq_length_filter]
    have := List.length_eq_countP_add_countP (dupRow df) df
    rw [this]
    congr 1
    apply List.countP_congr
    intro x _
    simp
  omega

/-! Shared helper lemmas for the reconciliation claims -/

theorem eq_of_keyCount_one {df : List Row} {k} (h1 : keyCount df k = 1) :
    ∀ {s r : Row}, s ∈ df → natKeyTup s = k → r ∈ df → natKeyTup r = k → s = r := by
  intro s r hs hks hr hkr
  have hlen : (df.filter (fun x => decide (natKeyTup x = k))).length = 1 := by
    rw [← List.countP_eq_length_filter]
    exact h1
  obtain ⟨a, ha⟩ := List.length_eq_one.mp hlen
  have hs' : s ∈ df.filter (fun x => decide (natKeyTup x = k)) :=
    List.mem_filter.mpr ⟨hs, by simp [hks]⟩
  have hr' : r ∈ df.filter (fun x => decide (natKeyTup x = k)) :=
    List.mem_filter.mpr ⟨hr, by simp [hkr]⟩
  rw [ha] at hs' hr'
  simp only [List.mem_singleton] at hs' hr'
  rw [hs', hr']

theorem dedup_keyCount (df : List Row) (k) (hk : ∃ r ∈ df, natKeyTup r = k) :
    keyCount (deduplicate_by_studentid df) k = 1 := by
  obtain ⟨r0, hr0, hk0⟩ := hk
  have hpos : 1 ≤ keyCount df k := by
    rw [← hk0]
    exact keyCount_pos_of_mem hr0
  rw [deduplicate_by_studentid, keyCount, List.countP_append,
    ← keyCount, ← keyCount]
  by_cases h2 : 2 ≤ keyCount df k
  · have hu : keyCount (df.filter (fun r => !(dupRow df r))) k = 0 := by
      rw [keyCount, List.countP_eq_zero]
      intro x hx
      simp only [decide_eq_true_eq]
      intro hxk
      have := mem_uniques_count hx
      rw [hxk] at this
      omega
    have hwle : keyCount (dupWinners df) k ≤ 1 :=
      keyCount_le_one_of_pairwise (dupWinners_pairwise df) k
    have hwpos : 1 ≤ keyCount (dupWinners df) k := by
      obtain ⟨w, hw, hwk⟩ := exists_dupWinner ⟨r0, hr0, hk0⟩ h2
      exact List.countP_pos_iff.mpr ⟨w, hw, by simp [hwk]⟩
    omega
  · have hone : keyCount df k = 1 := by omega
    have hu : keyCount (df.filter (fun r => !(dupRow df r))) k = 1 := by
      rw [keyCount, List.countP_filter]
      rw [show (fun a => decide (natKeyTup a = k) && !(dupRow df a))
          = fun a => decide (natKeyTup a = k) && !(dupRow df a) from rfl]
      have hcong : List.countP
          (fun a => decide (natKeyTup a = k) && !(dupRow df a)) df
          = List.countP (fun a => decide (natKeyTup a = k)) df := by
        apply List.countP_congr
        intro x _
        by_cases hxk : natKeyTup x = k
        · have hdup : dupRow df x = false := by
            rw [dupRow, decide_eq_false_iff_not, not_le, keyCount, hxk, ← keyCount]
            omega
          simp [hxk, hdup]
        · simp [hxk]
      rw [hcong, ← keyCount]
      exact hone
    have hw : keyCount (dupWinners df) k = 0 := by
      rw [keyCount, List.countP_eq_zero]
      intro x hx
      simp only [decide_eq_true_eq]
      intro hxk
      have := (mem_dupWinners hx).2
      rw [hxk] at this
      omega
    omega

theorem mem_dedup_mem {df r} (h : r ∈ deduplicate_by_studentid df) : r ∈ df := by
  rw [deduplicate_by_studentid] at h
  rcases List.mem_append.mp h with h1 | h1
  · exact (List.mem_filter.mp h1).1
  · exact (mem_dupWinners h1).1

theorem dedup_pairwise_ukey (l : List Row)
    (H : ∀ x ∈ l, ∀ y ∈ l,
      x.student_attendance_data_unique_key = y.student_attendance_data_unique_key →
      natKeyTup x = natKeyTup y) :
    (deduplicate_by_studentid l).Pairwise
      (fun a b => a.student_attendance_data_unique_key
        ≠ b.student_attendance_data_unique_key) := by
  rw [deduplicate_by_studentid, List.pairwise_append]
  refine ⟨?_, ?_, ?_⟩
  · refine List.Pairwise.imp_of_mem ?_ (uniques_pairwise l)
    intro a b ha hb hne heq
    exact hne (H a (List.mem_filter.mp ha).1 b (List.mem_filter.mp hb).1 heq)
  · refine List.Pairwise.imp_of_mem ?_ (dupWinners_pairwise l)
    intro a b ha hb hne heq
    exact hne (H a (mem_dupWinners ha).1 b (mem_dupWinners hb).1 heq)
  · intro a ha b hb heq
    have hkey : natKeyTup a = natKeyTup b :=
      H a (List.mem_filter.mp ha).1 b (mem_dupWinners hb).1 heq
    have h1 := mem_uniques_count ha
    have h2 := (mem_dupWinners hb).2
    rw [hkey] at h1
    omega

theorem attachKey_natKeyTup (r : Row) : natKeyTup (attachKey r) = natKeyTup r := rfl

theorem attachKey_makeUniqueKey (r : Row) :
    makeUniqueKey (attachKey r) = makeUniqueKey r := rfl

theorem attachKey_stored (r : Row) :
    (attachKey r).student_attendance_data_unique_key = makeUniqueKey r := rfl

theorem insertRows_cons_hard {persist : Row → Outcome} {r : Row} {rs : List Row}
    (hp : persist r = .hardError) :
    insertRows persist (r :: rs)
      = { ins := 0, dup := 0, attempted := 1, aborted := true } := by
  simp only [insertRows, hp]

theorem insertRows_cons_ins {persist : Row → Outcome} {r : Row} {rs : List Row}
    (hp : persist r = .inserted) :
    insertRows persist (r :: rs)
      = { ins := (insertRows persist rs).ins + 1, dup := (insertRows persist rs).dup,
          attempted := (insertRows persist rs).attempted + 1,
          aborted := (insertRows persist rs).aborted } := by
  simp only [insertRows, hp]

theorem insertRows_cons_dup {persist : Row → Outcome} {r : Row} {rs : List Row}
    (hp : persist r = .dupKey) :
    insertRows persist (r :: rs)
      = { ins := (insertRows persist rs).ins, dup := (insertRows persist rs).dup + 1,
          attempted := (insertRows persist rs).attempted + 1,
          aborted := (insertRows persist rs).aborted } := by
  simp only [insertRows, hp]

theorem insertRows_total (persist : Row → Outcome) :
    ∀ l : List Row, (insertRows persist l).aborted = false →
      (insertRows persist l).ins + (insertRows persist l).dup = l.length := by
  intro l
  induction l with
  | nil => intro _; rfl
  | cons r rs ih =>
    intro hab
    cases hp : persist r with
    | hardError =>
      rw [insertRows_cons_hard hp] at hab
      cases hab
    | inserted =>
      rw [insertRows_cons_ins hp] at hab ⊢
      simp only [List.length_cons]
      have := ih hab
      omega
    | dupKey =>
      rw [insertRows_cons_dup hp] at hab ⊢
      simp only [List.length_cons]
      have := ih hab
      omega

theorem insertRows_aborted_of (persist : Row → Outcome) :
    ∀ (a : List Row) (r : Row) (b : List Row), persist r = .hardError →
      (∀ x ∈ a, persist x ≠ .hardError) →
      (insertRows persist (a ++ r :: b)).aborted = true
        ∧ (insertRows persist (a ++ r :: b)).attempted = a.length + 1 := by
  intro a
  induction a with
  | nil =>
    intro r b hr _
    rw [List.nil_append, insertRows_cons_hard hr]
    exact ⟨rfl, rfl⟩
  | cons x a' ih =>
    intro r b hr ha
    have hx := ha x (List.mem_cons_self x a')
    obtain ⟨h1, h2⟩ := ih r b hr (fun y hy => ha y (List.mem_cons_of_mem x hy))
    rw [List.cons_append]
    cases hp : persist x with
    | hardError => exact absurd hp hx
    | inserted =>
      rw [insertRows_cons_ins hp]
      refine ⟨h1, ?_⟩
      simp only [List.length_cons]
      omega
    | dupKey =>
      rw [insertRows_cons_dup hp]
      refine ⟨h1, ?_⟩
      simp only [List.length_cons]
      omega


/-! Claim theorems -/

/-- C1 counterexample: the final record set of a reconciliation run can
contain two records sharing an identityKey.  `c1RowA` and `c1RowB` agree on
academicYear, month, school, gradeLabel and studentId (hence share a key)
but differ in studentName, so they fall into different natural-identity
groups and both survive duplicate resolution. -/
theorem claim_C1_cex :
    ¬ (reconcile_records [c1RowA, c1RowB] []).Pairwise
        (fun a b => a.student_attendance_data_unique_key
          ≠ b.student_attendance_data_unique_key) := by
  decide

/-- C1 (amended): for every batch in which any two records sharing a
derived identityKey also share the natural-identity tuple (studentId,
studentName, gender, school), the record set emitted after key
derivation, incremental filtering and duplicate resolution has
pairwise-distinct identityKeys. -/
theorem claim_C1_amended (df : List Row) (E : List String)
    (H : ∀ r ∈ df, ∀ s ∈ df, makeUniqueKey r = makeUniqueKey s →
      natKeyTup r = natKeyTup s) :
    (reconcile_records df E).Pairwise
      (fun a b => a.student_attendance_data_unique_key
        ≠ b.student_attendance_data_unique_key) := by
  simp only [reconcile_records]
  by_cases hempty : (filter_new (df.map attachKey) E).isEmpty
  · rw [if_pos hempty, List.isEmpty_iff.mp hempty]
    exact List.Pairwise.nil
  · rw [if_neg hempty]
    apply dedup_pairwise_ukey
    intro x hx y hy heq
    rw [filter_new] at hx hy
    obtain ⟨x0, hx0, hx1⟩ := List.mem_map.mp (List.mem_filter.mp hx).1
    obtain ⟨y0, hy0, hy1⟩ := List.mem_map.mp (List.mem_filter.mp hy).1
    rw [← hx1, ← hy1, attachKey_stored, attachKey_stored] at heq
    rw [← hx1, ← hy1, attachKey_natKeyTup, attachKey_natKeyTup]
    exact H x0 hx0 y0 hy0 heq

/-- C1 witness for the amended theorem at a concrete batch with
distinct identity keys. -/
theorem claim_C1_witness :
    (reconcile_records [d1, d3] []).Pairwise
      (fun a b => a.student_attendance_data_unique_key
        ≠ b.student_attendance_data_unique_key) :=
  claim_C1_amended [d1, d3] [] (by decide)

/-- C2: for every batch and every natural-identity tuple present in
it, the duplicate resolver keeps exactly one record with that tuple, the
kept record is a batch record whose attendancePercentage is at least that
of every batch record with the tuple, and when the tuple occurs exactly
once its record passes through unchanged. -/
theorem claim_C2_dedup_group (df : List Row)
    (k : String × String × String × String) (hk : ∃ r ∈ df, natKeyTup r = k) :
    keyCount (deduplicate_by_studentid df) k = 1
    ∧ (∀ r ∈ deduplicate_by_studentid df, natKeyTup r = k →
        r ∈ df ∧ ∀ s ∈ df, natKeyTup s = k →
          s.attendance_percentage ≤ r.attendance_percentage)
    ∧ (keyCount df k = 1 → ∀ r ∈ df, natKeyTup r = k →
        r ∈ deduplicate_by_studentid df) := by
  refine ⟨dedup_keyCount df k hk, ?_, ?_⟩
  · intro r hr hkr
    refine ⟨mem_dedup_mem hr, ?_⟩
    intro s hs hks
    rw [deduplicate_by_studentid] at hr
    rcases List.mem_append.mp hr with h1 | h1
    · have hcnt := mem_uniques_count h1
      rw [hkr] at hcnt
      have hsr : s = r :=
        eq_of_keyCount_one hcnt hs hks (List.mem_filter.mp h1).1 hkr
      rw [hsr]
    · exact dupWinners_max h1 s hs (by rw [hks, hkr])
  · intro hone r hr hkr
    rw [deduplicate_by_studentid, List.mem_append]
    left
    refine List.mem_filter.mpr ⟨hr, ?_⟩
    rw [dupRow, hkr, hone]
    decide

/-- C2 witness: in the batch `[d1, d2, d3]` the duplicated tuple of
`d1`/`d2` is resolved to exactly one record. -/
theorem claim_C2_witness :
    keyCount (deduplicate_by_studentid [d1, d2, d3]) (natKeyTup d1) = 1 :=
  (claim_C2_dedup_group [d1, d2, d3] (natKeyTup d1) ⟨d1, by decide, rfl⟩).1

/-- C3: the incremental filter returns exactly the records of the
batch whose identityKey is not among the existing keys — it is a sublist
of the batch (so every retained record is unchanged), membership is
equivalent to batch membership plus key absence, and the retain decision
is a function of the identityKey alone. -/
theorem claim_C3_filter (B : List Row) (E : List String) :
    (filter_new B E).Sublist B
    ∧ (∀ r : Row, r ∈ filter_new B E ↔
        r ∈ B ∧ r.student_attendance_data_unique_key ∉ E)
    ∧ (∀ r s : Row,
        r.student_attendance_data_unique_key
          = s.student_attendance_data_unique_key →
        keepNew E r = keepNew E s) := by
  refine ⟨List.filter_sublist B, ?_, ?_⟩
  · intro r
    rw [filter_new, List.mem_filter, keepNew]
    simp
  · intro r s h
    rw [keepNew, keepNew, h]

/-- C3 witness at a concrete batch and key set. -/
theorem claim_C3_witness : d1 ∈ filter_new [d1] ["absent-key"] :=
  ((claim_C3_filter [d1] ["absent-key"]).2.1 d1).mpr ⟨by decide, by decide⟩

/-- C8 counterexample: with a batch of two rows where the first
persists and the second fails with a non-duplicate error, the code sets
`error_records` to the full batch size 2, although only 1 row was not yet
persisted at the failure, and the already-inserted first row is counted
as errored. -/
theorem claim_C8_cex :
    (insert_data_to_mysql c8persist [d1, d3] Stats.init).error_records = 2
    ∧ ¬ (insert_data_to_mysql c8persist [d1, d3] Stats.init).error_records = 1 := by
  decide

/-- C8 (amended): when some row of the batch fails with a
non-duplicate error (and earlier rows did not), the insert loop stops at
that row — exactly the earlier rows plus the failing one are attempted —
and the stats count as Errored the whole batch, `len(df)`, leaving the
inserted and skipped counters at their pre-call values. -/
theorem claim_C8_amended (persist : Row → Outcome) (stats : Stats)
    (a b : List Row) (r : Row)
    (hr : persist r = .hardError) (ha : ∀ x ∈ a, persist x ≠ .hardError) :
    insert_data_to_mysql persist (a ++ r :: b) stats
      = { stats with error_records := (a ++ r :: b).length }
    ∧ (insertRows persist (a ++ r :: b)).attempted = a.length + 1 := by
  obtain ⟨h1, h2⟩ := insertRows_aborted_of persist a r b hr ha
  refine ⟨?_, h2⟩
  simp only [insert_data_to_mysql, h1]
  rfl

/-- C8 witness for the amended theorem at a concrete failing batch. -/
theorem claim_C8_witness :
    insert_data_to_mysql c8persist ([d1] ++ d3 :: []) Stats.init
      = { Stats.init with error_records := ([d1] ++ d3 :: []).length }
    ∧ (insertRows c8persist ([d1] ++ d3 :: [])).attempted = [d1].length + 1 :=
  claim_C8_amended c8persist Stats.init [d1] [] d3 (by decide) (by decide)

/-- C9: after any full run the counters satisfy
`new_records_to_process = new_records_inserted + duplicates_removed +
duplicate_records_skipped + error_records`, whichever per-row outcomes
the persistence collaborator returns. -/
theorem claim_C9_stats (df : List Row) (E : List String)
    (persist : Row → Outcome) :
    (fetch_data_from_api_and_process df E persist).new_records_to_process
      = (fetch_data_from_api_and_process df E persist).new_records_inserted
        + (fetch_data_from_api_and_process df E persist).duplicates_removed
        + (fetch_data_from_api_and_process df E persist).duplicate_records_skipped
        + (fetch_data_from_api_and_process df E persist).error_records := by
  simp only [fetch_data_from_api_and_process]
  by_cases h1 : (filter_new (df.map attachKey) E).isEmpty
  · rw [if_pos h1]
    simp [Stats.init, List.isEmpty_iff.mp h1]
  · rw [if_neg h1]
    have hlen := dedup_length_le (filter_new (df.map attachKey) E)
    by_cases h2 : (deduplicate_by_studentid (filter_new (df.map attachKey) E)).isEmpty
    · rw [if_pos h2]
      have h0 : (deduplicate_by_studentid (filter_new (df.map attachKey) E)).length = 0 := by
        rw [List.isEmpty_iff.mp h2]
        rfl
      simp [Stats.init, h0]
    · rw [if_neg h2]
      simp only [insert_data_to_mysql]
      by_cases h3 : (insertRows persist
          (deduplicate_by_studentid (filter_new (df.map attachKey) E))).aborted
      · rw [if_pos h3]
        simp only [Stats.init]
        omega
      · rw [if_neg h3]
        have htot := insertRows_total persist
          (deduplicate_by_studentid (filter_new (df.map attachKey) E))
          (by simpa using h3)
        simp only [Stats.init]
        omega

/-- C10: the duplicate resolver emits first the rows whose
natural-identity tuple occurs exactly once, in their original order, then
one winner per duplicated tuple, the winners being batch records of
duplicated tuples ordered by ascending natural-identity key — and on the
concrete batch `[d1, d2, d3]` the output `[d3, d1]` shows the input
order is not preserved. -/
theorem claim_C10_dedup_order :
    (∀ df : List Row,
      deduplicate_by_studentid df
        = df.filter (fun r => decide (keyCount df (natKeyTup r) = 1))
          ++ dupWinners df
      ∧ (dupWinners df).Pairwise (fun a b => keyCmp a b = .lt)
      ∧ (∀ r ∈ dupWinners df, r ∈ df ∧ 2 ≤ keyCount df (natKeyTup r))
      ∧ (∀ k, (∃ r ∈ df, natKeyTup r = k) → 2 ≤ keyCount df k →
          ∃ r ∈ dupWinners df, natKeyTup r = k))
    ∧ deduplicate_by_studentid [d1, d2, d3] = [d3, d1] := by
  constructor
  · intro df
    refine ⟨?_, dupWinners_sorted df, fun r hr => mem_dupWinners hr,
      fun k hex h2 => exists_dupWinner hex h2⟩
    rw [deduplicate_by_studentid]
    congr 1
    apply List.filter_congr
    intro x hx
    have hpos := keyCount_pos_of_mem hx
    by_cases h : 2 ≤ keyCount df (natKeyTup x)
    · have hne : ¬ keyCount df (natKeyTup x) = 1 := by omega
      simp [dupRow, h, hne]
    · have heq : keyCount df (natKeyTup x) = 1 := by omega
      simp [dupRow, h, heq]
  · decide

/-- C10 witness: `d1` is the winner of the duplicated tuple in
`[d1, d2, d3]`. -/
theorem claim_C10_witness :
    d1 ∈ [d1, d2, d3] ∧ 2 ≤ keyCount [d1, d2, d3] (natKeyTup d1) :=
  (claim_C10_dedup_order.1 [d1, d2, d3]).2.2.1 d1 (by decide)

/-- C4 counterexample: `clean_student_name` is not total — on `None`
the unguarded `re.sub` call raises `TypeError`. -/
theorem claim_C4_cex : clean_student_name_py PyVal.none = .error () := rfl

/-- C4 (amended): every field normalizer is total on string inputs;
`convert_grade_name` and `clean_gender` are additionally total on `None`
and non-string values (their guard returns such values unchanged), but
`clean_student_name`, `format_date_column` and `extract_division` raise
`TypeError` on every `None` or non-string input. -/
theorem claim_C4_amended (v : PyVal) :
    ((∃ s, v = .str s) →
      pyOk (clean_student_name_py v) = true
      ∧ pyOk (convert_grade_name_py v) = true
      ∧ pyOk (format_date_column_py v) = true
      ∧ pyOk (clean_gender_py v) = true
      ∧ pyOk (extract_division_py v) = true)
    ∧ pyOk (convert_grade_name_py v) = true
    ∧ pyOk (clean_gender_py v) = true
    ∧ ((∀ s, v ≠ .str s) →
      pyOk (clean_student_name_py v) = false
      ∧ pyOk (format_date_column_py v) = false
      ∧ pyOk (extract_division_py v) = false) := by
  cases v with
  | str s => exact ⟨fun _ => ⟨rfl, rfl, rfl, rfl, rfl⟩, rfl, rfl,
      fun h => absurd rfl (h s)⟩
  | none =>
    refine ⟨fun h => ?_, rfl, rfl, fun _ => ⟨rfl, rfl, rfl⟩⟩
    obtain ⟨s, hs⟩ := h
    cases hs
  | num n =>
    refine ⟨fun h => ?_, rfl, rfl, fun _ => ⟨rfl, rfl, rfl⟩⟩
    obtain ⟨s, hs⟩ := h
    cases hs

/-- C4 witness at a concrete string input. -/
theorem claim_C4_witness :
    pyOk (clean_student_name_py (PyVal.str "x")) = true
    ∧ pyOk (convert_grade_name_py (PyVal.str "x")) = true
    ∧ pyOk (format_date_column_py (PyVal.str "x")) = true
    ∧ pyOk (clean_gender_py (PyVal.str "x")) = true
    ∧ pyOk (extract_division_py (PyVal.str "x")) = true :=
  (claim_C4_amended (PyVal.str "x")).1 ⟨"x", rfl⟩

/-- C6: gender normalization maps any string whose trim+lowercase form
is in the male synonym set to `"M"`, any string whose form is in the
female set to `"F"`, returns every other string unchanged (no rejection),
returns non-string values unchanged, and in particular maps `" Girl "`
to `"F"` and leaves `"Other"` unchanged. -/
theorem claim_C6_gender :
    (∀ s : String,
      (stripLower s ∈ male_values → clean_gender s = "M")
      ∧ (stripLower s ∈ female_values → clean_gender s = "F")
      ∧ (stripLower s ∉ male_values → stripLower s ∉ female_values →
          clean_gender s = s))
    ∧ clean_gender " Girl " = "F"
    ∧ clean_gender "Other" = "Other"
    ∧ (∀ v : PyVal, (∀ s, v ≠ .str s) → clean_gender_py v = .ok v) := by
  refine ⟨?_, by decide, by decide, ?_⟩
  · intro s
    refine ⟨fun hm => ?_, fun hf => ?_, fun hm hf => ?_⟩
    · by_cases he : s.isEmpty
      · rw [(String.isEmpty_iff s).mp he] at hm
        exact absurd hm (by decide)
      · rw [clean_gender, if_neg he, if_pos hm]
    · have hnm : stripLower s ∉ male_values := by
        intro hc
        have : ∀ x ∈ female_values, x ∉ male_values := by decide
        exact this _ hf hc
      by_cases he : s.isEmpty
      · rw [(String.isEmpty_iff s).mp he] at hf
        exact absurd hf (by decide)
      · rw [clean_gender, if_neg he, if_neg hnm, if_pos hf]
    · by_cases he : s.isEmpty
      · rw [clean_gender, if_pos he]
      · rw [clean_gender, if_neg he, if_neg hm, if_neg hf]
  · intro v hv
    cases v with
    | str s => exact absurd rfl (hv s)
    | none => rfl
    | num n => rfl

/-- C6 witness at a concrete male synonym. -/
theorem claim_C6_witness : clean_gender "Boy" = "M" :=
  (claim_C6_gender.1 "Boy").1 (by decide)

/-! Character-class and string-primitive lemmas for the grade claim -/

theorem map_id_of {f : Char → Char} :
    ∀ l : List Char, (∀ c ∈ l, f c = c) → l.map f = l := by
  intro l
  induction l with
  | nil => intro _; rfl
  | cons x xs ih =>
    intro h
    rw [List.map_cons, h x (List.mem_cons_self x xs),
      ih (fun c hc => h c (List.mem_cons_of_mem x hc))]

theorem pyToUpper_of_space {c : Char} (h : pyIsSpace c = true) : pyToUpper c = c := by
  have h' : c ∈ spaceChars := by simpa [pyIsSpace] using h
  fin_cases h' <;> decide

theorem pyToUpper_of_roman {c : Char} (h : romanChar c = true) : pyToUpper c = c := by
  have h' : c ∈ romanChars := by simpa [romanChar] using h
  fin_cases h' <;> decide

theorem pyToUpper_of_digit {c : Char} (h : pyIsDigit c = true) : pyToUpper c = c := by
  have h' : c ∈ digitChars := by simpa [pyIsDigit] using h
  fin_cases h' <;> decide

theorem roman_not_space {c : Char} (h : romanChar c = true) : pyIsSpace c = false := by
  have h' : c ∈ romanChars := by simpa [romanChar] using h
  fin_cases h' <;> decide

theorem digit_not_space {c : Char} (h : pyIsDigit c = true) : pyIsSpace c = false := by
  have h' : c ∈ digitChars := by simpa [pyIsDigit] using h
  fin_cases h' <;> decide

theorem digit_not_roman {c : Char} (h : pyIsDigit c = true) : romanChar c = false := by
  have h' : c ∈ digitChars := by simpa [pyIsDigit] using h
  fin_cases h' <;> decide

theorem dropTrailingWs_concat {b : Char} (hb : pyIsSpace b = false) (L : List Char) :
    dropTrailingWs (L ++ [b]) = L ++ [b] := by
  rw [dropTrailingWs, List.reverse_append]
  simp only [List.reverse_cons, List.reverse_nil, List.nil_append,
    List.singleton_append, List.dropWhile_cons, hb]
  simp

theorem span_append {p : Char → Bool} :
    ∀ (a : List Char) (x : Char) (b : List Char),
      (∀ c ∈ a, p c = true) → p x = false →
      (a ++ x :: b).takeWhile p = a ∧ (a ++ x :: b).dropWhile p = x :: b := by
  intro a
  induction a with
  | nil =>
    intro x b _ hx
    rw [List.nil_append]
    constructor
    · simp [List.takeWhile_cons, hx]
    · simp [List.dropWhile_cons, hx]
  | cons y a' ih =>
    intro x b ha hx
    have hy : p y = true := ha y (List.mem_cons_self y a')
    obtain ⟨h1, h2⟩ := ih x b (fun c hc => ha c (List.mem_cons_of_mem y hc)) hx
    rw [List.cons_append]
    constructor
    · simp [List.takeWhile_cons, hy, h1]
    · simp [List.dropWhile_cons, hy, h2]

theorem gradeTokenMatch_pos (p : Char → Bool) (ws : List Char) (x : Char)
    (tok' : List Char) (hws1 : ws ≠ []) (hws : ∀ c ∈ ws, pyIsSpace c = true)
    (hx : pyIsSpace x = false) (hall : (x :: tok').all p = true) :
    gradeTokenMatch p ('G' :: 'R' :: 'A' :: 'D' :: 'E' :: (ws ++ x :: tok'))
      = some (x :: tok') := by
  obtain ⟨h1, h2⟩ := span_append ws x tok' hws hx
  simp only [gradeTokenMatch, h1, h2]
  have hwse : ws.isEmpty = false := by
    cases ws with
    | nil => exact absurd rfl hws1
    | cons a l => rfl
  simp [hwse, hall]

theorem gradeTokenMatch_neg (p : Char → Bool) (ws : List Char) (x : Char)
    (tok' : List Char) (hws : ∀ c ∈ ws, pyIsSpace c = true)
    (hx : pyIsSpace x = false) (hpx : p x = false) :
    gradeTokenMatch p ('G' :: 'R' :: 'A' :: 'D' :: 'E' :: (ws ++ x :: tok'))
      = none := by
  obtain ⟨h1, h2⟩ := span_append ws x tok' hws hx
  simp only [gradeTokenMatch, h1, h2]
  simp [hpx]

theorem strip_grade_form (ws : List Char) (x : Char) (tok' : List Char)
    (hlast : ∀ c ∈ x :: tok', pyIsSpace c = false) :
    pyStripChars ('G' :: 'R' :: 'A' :: 'D' :: 'E' :: (ws ++ x :: tok'))
      = 'G' :: 'R' :: 'A' :: 'D' :: 'E' :: (ws ++ x :: tok') := by
  rw [pyStripChars, List.dropWhile_cons]
  have hG : pyIsSpace 'G' = false := by decide
  simp only [hG]
  simp only [Bool.false_eq_true, if_false]
  rcases List.eq_nil_or_concat (x :: tok') with hc | ⟨L, b, hc⟩
  · cases hc
  · have hb : pyIsSpace b = false := by
      apply hlast
      rw [hc]
      simp
    have hshape : 'G' :: 'R' :: 'A' :: 'D' :: 'E' :: (ws ++ x :: tok')
        = ('G' :: 'R' :: 'A' :: 'D' :: 'E' :: (ws ++ L)) ++ [b] := by
      rw [hc]
      simp [List.concat_eq_append, List.append_assoc]
    rw [hshape, dropTrailingWs_concat hb]

theorem not_mem_of_head_ne {vs : List String} {s : String} {c0 : Char}
    (hvs : ∀ v ∈ vs, v.data.head? ≠ some c0) (hs : s.data.head? = some c0) :
    s ∉ vs :=
  fun h => hvs s h hs

theorem convert_grade_grade_form (ws : List Char) (x : Char) (tok' : List Char)
    (hws : ∀ c ∈ ws, pyIsSpace c = true)
    (htokspace : ∀ c ∈ x :: tok', pyIsSpace c = false)
    (htokupper : ∀ c ∈ x :: tok', pyToUpper c = c) :
    convert_grade_name ⟨'G' :: 'R' :: 'A' :: 'D' :: 'E' :: (ws ++ x :: tok')⟩
      = match gradeTokenMatch romanChar
          ('G' :: 'R' :: 'A' :: 'D' :: 'E' :: (ws ++ x :: tok')) with
        | some tok =>
          match List.lookup (String.mk tok) roman_to_number with
          | some num => "GRADE " ++ num
          | none => "GRADE " ++ String.mk tok
        | none =>
          match gradeTokenMatch pyIsDigit
              ('G' :: 'R' :: 'A' :: 'D' :: 'E' :: (ws ++ x :: tok')) with
          | some ds => "GRADE " ++ toString (digitsToNat ds)
          | none =>
            String.mk ('G' :: 'R' :: 'A' :: 'D' :: 'E' :: (ws ++ x :: tok')) := by
  have hstrip : pyStripChars ('G' :: 'R' :: 'A' :: 'D' :: 'E' :: (ws ++ x :: tok'))
      = 'G' :: 'R' :: 'A' :: 'D' :: 'E' :: (ws ++ x :: tok') :=
    strip_grade_form ws x tok' htokspace
  have hupper : ('G' :: 'R' :: 'A' :: 'D' :: 'E' :: (ws ++ x :: tok')).map pyToUpper
      = 'G' :: 'R' :: 'A' :: 'D' :: 'E' :: (ws ++ x :: tok') := by
    apply map_id_of
    intro c hc
    simp only [List.mem_cons, List.mem_append] at hc
    rcases hc with h | h | h | h | h | (h | h | h)
    · subst h; decide
    · subst h; decide
    · subst h; decide
    · subst h; decide
    · subst h; decide
    · exact pyToUpper_of_space (hws c h)
    · subst h; exact htokupper c (List.mem_cons_self c tok')
    · exact htokupper c (List.mem_cons_of_mem x h)
  have hne : ¬ ((String.mk
      ('G' :: 'R' :: 'A' :: 'D' :: 'E' :: (ws ++ x :: tok'))).isEmpty = true) := by
    rw [String.isEmpty_iff]
    intro h
    have h2 : 'G' :: 'R' :: 'A' :: 'D' :: 'E' :: (ws ++ x :: tok')
        = ([] : List Char) := congrArg String.data h
    cases h2
  have hheadG : (cleanedForm (String.mk
      ('G' :: 'R' :: 'A' :: 'D' :: 'E' :: (ws ++ x :: tok')))).data.head?
      = some 'G' := by
    show (List.filter (fun c => !(c == '.' || c == ' '))
      ((pyStripChars
        ('G' :: 'R' :: 'A' :: 'D' :: 'E' :: (ws ++ x :: tok'))).map pyToUpper)).head?
      = some 'G'
    rw [hstrip, hupper, List.filter_cons]
    simp
  have h1 : cleanedForm (String.mk
      ('G' :: 'R' :: 'A' :: 'D' :: 'E' :: (ws ++ x :: tok'))) ∉ nursery_variants :=
    not_mem_of_head_ne (by decide) hheadG
  have h2 : cleanedForm (String.mk
      ('G' :: 'R' :: 'A' :: 'D' :: 'E' :: (ws ++ x :: tok'))) ∉ jrkg_variants :=
    not_mem_of_head_ne (by decide) hheadG
  have h3 : cleanedForm (String.mk
      ('G' :: 'R' :: 'A' :: 'D' :: 'E' :: (ws ++ x :: tok'))) ∉ srkg_variants :=
    not_mem_of_head_ne (by decide) hheadG
  simp only [convert_grade_name]
  rw [if_neg hne, if_neg h1, if_neg h2, if_neg h3]
  show (match gradeTokenMatch romanChar
      ((pyStripChars
        ('G' :: 'R' :: 'A' :: 'D' :: 'E' :: (ws ++ x :: tok'))).map pyToUpper) with
    | some tok =>
      match List.lookup (String.mk tok) roman_to_number with
      | some num => "GRADE " ++ num
      | none => "GRADE " ++ String.mk tok
    | none =>
      match gradeTokenMatch pyIsDigit
          ((pyStripChars
            ('G' :: 'R' :: 'A' :: 'D' :: 'E' :: (ws ++ x :: tok'))).map pyToUpper) with
      | some ds => "GRADE " ++ toString (digitsToNat ds)
      | none =>
        String.mk ((pyStripChars
          ('G' :: 'R' :: 'A' :: 'D' :: 'E' :: (ws ++ x :: tok'))).map pyToUpper)) = _
  rw [hstrip, hupper]

theorem convert_grade_roman (ws tok : List Char) (hws1 : ws ≠ [])
    (hws : ∀ c ∈ ws, pyIsSpace c = true) (htok1 : tok ≠ [])
    (htok : ∀ c ∈ tok, romanChar c = true) :
    convert_grade_name ⟨'G' :: 'R' :: 'A' :: 'D' :: 'E' :: (ws ++ tok)⟩
      = match List.lookup (String.mk tok) roman_to_number with
        | some num => "GRADE " ++ num
        | none => "GRADE " ++ String.mk tok := by
  cases tok with
  | nil => exact absurd rfl htok1
  | cons x tok' =>
    rw [convert_grade_grade_form ws x tok' hws
      (fun c hc => roman_not_space (htok c hc))
      (fun c hc => pyToUpper_of_roman (htok c hc))]
    rw [gradeTokenMatch_pos romanChar ws x tok' hws1 hws
      (roman_not_space (htok x (List.mem_cons_self x tok')))
      (List.all_eq_true.mpr (fun c hc => htok c hc))]

theorem convert_grade_digits (ws ds : List Char) (hws1 : ws ≠ [])
    (hws : ∀ c ∈ ws, pyIsSpace c = true) (hds1 : ds ≠ [])
    (hds : ∀ c ∈ ds, pyIsDigit c = true) :
    convert_grade_name ⟨'G' :: 'R' :: 'A' :: 'D' :: 'E' :: (ws ++ ds)⟩
      = "GRADE " ++ toString (digitsToNat ds) := by
  cases ds with
  | nil => exact absurd rfl hds1
  | cons x ds' =>
    rw [convert_grade_grade_form ws x ds' hws
      (fun c hc => digit_not_space (hds c hc))
      (fun c hc => pyToUpper_of_digit (hds c hc))]
    rw [gradeTokenMatch_neg romanChar ws x ds' hws
      (digit_not_space (hds x (List.mem_cons_self x ds')))
      (digit_not_roman (hds x (List.mem_cons_self x ds')))]
    rw [gradeTokenMatch_pos pyIsDigit ws x ds' hws1 hws
      (digit_not_space (hds x (List.mem_cons_self x ds')))
      (List.all_eq_true.mpr (fun c hc => hds c hc))]

theorem convert_grade_alias_nursery (s : String)
    (h : cleanedForm s ∈ nursery_variants) : convert_grade_name s = "NURSERY" := by
  by_cases he : s.isEmpty = true
  · rw [(String.isEmpty_iff s).mp he] at h
    exact absurd h (by decide)
  · simp only [convert_grade_name]
    rw [if_neg he, if_pos h]

theorem convert_grade_alias_jrkg (s : String)
    (h : cleanedForm s ∈ jrkg_variants) : convert_grade_name s = "JR.KG" := by
  have hn : cleanedForm s ∉ nursery_variants :=
    (by decide : ∀ v ∈ jrkg_variants, v ∉ nursery_variants) _ h
  by_cases he : s.isEmpty = true
  · rw [(String.isEmpty_iff s).mp he] at h
    exact absurd h (by decide)
  · simp only [convert_grade_name]
    rw [if_neg he, if_neg hn, if_pos h]

theorem convert_grade_alias_srkg (s : String)
    (h : cleanedForm s ∈ srkg_variants) : convert_grade_name s = "SR.KG" := by
  have hn : cleanedForm s ∉ nursery_variants :=
    (by decide : ∀ v ∈ srkg_variants, v ∉ nursery_variants) _ h
  have hj : cleanedForm s ∉ jrkg_variants :=
    (by decide : ∀ v ∈ srkg_variants, v ∉ jrkg_variants) _ h
  by_cases he : s.isEmpty = true
  · rw [(String.isEmpty_iff s).mp he] at h
    exact absurd h (by decide)
  · simp only [convert_grade_name]
    rw [if_neg he, if_neg hn, if_neg hj, if_pos h]

theorem convert_grade_fallthrough (s : String)
    (h1 : cleanedForm s ∉ nursery_variants)
    (h2 : cleanedForm s ∉ jrkg_variants)
    (h3 : cleanedForm s ∉ srkg_variants)
    (hr : gradeTokenMatch romanChar (stripUpper s).data = none)
    (hd : gradeTokenMatch pyIsDigit (stripUpper s).data = none) :
    convert_grade_name s = stripUpper s := by
  by_cases he : s.isEmpty = true
  · rw [(String.isEmpty_iff s).mp he]
    rfl
  · simp only [convert_grade_name]
    rw [if_neg he, if_neg h1, if_neg h2, if_neg h3]
    have hr' : gradeTokenMatch romanChar ((pyStripChars s.data).map pyToUpper)
        = none := hr
    have hd' : gradeTokenMatch pyIsDigit ((pyStripChars s.data).map pyToUpper)
        = none := hd
    rw [hr', hd']
    rfl

/-- C5: grade-label normalization (a) collapses every input whose
cleaned form is a known Nursery / Jr.KG / Sr.KG variant to the canonical
token, (b) normalizes `GRADE <Roman numeral in the table>` to
`GRADE <Arabic numeral>` via the fixed table and passes untabled Roman
tokens through as `GRADE <input-token>`, (c) normalizes
`GRADE <Arabic numeral>` to `GRADE <int(numeral)>`, (d) uppercase-trims
every other input, and in particular maps `"GRADE IV"` to `"GRADE 4"`
and each of `"Jr.KG"`, `"JRKG"`, `"JR KG"` to `"JR.KG"`. -/
theorem claim_C5_grade :
    (∀ s : String,
      (cleanedForm s ∈ nursery_variants → convert_grade_name s = "NURSERY")
      ∧ (cleanedForm s ∈ jrkg_variants → convert_grade_name s = "JR.KG")
      ∧ (cleanedForm s ∈ srkg_variants → convert_grade_name s = "SR.KG"))
    ∧ (∀ ws tok : List Char, ws ≠ [] → (∀ c ∈ ws, pyIsSpace c = true) →
        tok ≠ [] → (∀ c ∈ tok, romanChar c = true) →
        (∀ num : String,
          List.lookup (String.mk tok) roman_to_number = some num →
          convert_grade_name ⟨'G' :: 'R' :: 'A' :: 'D' :: 'E' :: (ws ++ tok)⟩
            = "GRADE " ++ num)
        ∧ (List.lookup (String.mk tok) roman_to_number = none →
          convert_grade_name ⟨'G' :: 'R' :: 'A' :: 'D' :: 'E' :: (ws ++ tok)⟩
            = "GRADE " ++ String.mk tok))
    ∧ (∀ ws ds : List Char, ws ≠ [] → (∀ c ∈ ws, pyIsSpace c = true) →
        ds ≠ [] → (∀ c ∈ ds, pyIsDigit c = true) →
        convert_grade_name ⟨'G' :: 'R' :: 'A' :: 'D' :: 'E' :: (ws ++ ds)⟩
          = "GRADE " ++ toString (digitsToNat ds))
    ∧ (∀ s : String, cleanedForm s ∉ nursery_variants →
        cleanedForm s ∉ jrkg_variants → cleanedForm s ∉ srkg_variants →
        gradeTokenMatch romanChar (stripUpper s).data = none →
        gradeTokenMatch pyIsDigit (stripUpper s).data = none →
        convert_grade_name s = stripUpper s)
    ∧ (∀ p ∈ roman_to_number, List.lookup p.1 roman_to_number = some p.2)
    ∧ convert_grade_name "GRADE IV" = "GRADE 4"
    ∧ convert_grade_name "Jr.KG" = "JR.KG"
    ∧ convert_grade_name "JRKG" = "JR.KG"
    ∧ convert_grade_name "JR KG" = "JR.KG" := by
  refine ⟨?_, ?_, ?_, convert_grade_fallthrough, by decide, by decide,
    by decide, by decide, by decide⟩
  · intro s
    exact ⟨convert_grade_alias_nursery s, convert_grade_alias_jrkg s,
      convert_grade_alias_srkg s⟩
  · intro ws tok hws1 hws htok1 htok
    constructor
    · intro num hnum
      rw [convert_grade_roman ws tok hws1 hws htok1 htok, hnum]
    · intro hnone
      rw [convert_grade_roman ws tok hws1 hws htok1 htok, hnone]
  · exact convert_grade_digits

/-- C5 witness: the Roman-table case applied at `"GRADE IV"`. -/
theorem claim_C5_witness :
    convert_grade_name ⟨'G' :: 'R' :: 'A' :: 'D' :: 'E' :: ([' '] ++ ['I', 'V'])⟩
      = "GRADE " ++ "4" :=
  (claim_C5_grade.2.1 [' '] ['I', 'V'] (by decide) (by decide) (by decide)
    (by decide)).1 "4" (by decide)

/-! Lemmas about the `%d/%m/%Y` parse -/

theorem digit_ne_slash {c : Char} (h : pyIsDigit c = true) : ¬ (c = '/') := by
  have h' : c ∈ digitChars := by simpa [pyIsDigit] using h
  fin_cases h' <;> decide

theorem splitSlash_ne_nil : ∀ l : List Char, splitSlash l ≠ [] := by
  intro l
  induction l with
  | nil => simp [splitSlash]
  | cons x rest ih =>
    simp only [splitSlash]
    by_cases hx : x = '/'
    · rw [if_pos hx]
      simp
    · rw [if_neg hx]
      cases hsp : splitSlash rest with
      | nil => simp
      | cons g gs => simp

theorem splitSlash_append_noslash :
    ∀ (a l g : List Char) (gs : List (List Char)),
      (∀ c ∈ a, ¬ (c = '/')) → splitSlash l = g :: gs →
      splitSlash (a ++ l) = (a ++ g) :: gs := by
  intro a
  induction a with
  | nil =>
    intro l g gs _ hl
    rw [List.nil_append, List.nil_append]
    exact hl
  | cons x a' ih =>
    intro l g gs ha hl
    have hx : ¬ (x = '/') := ha x (List.mem_cons_self x a')
    rw [List.cons_append]
    simp only [splitSlash]
    rw [if_neg hx, ih l g gs (fun c hc => ha c (List.mem_cons_of_mem x hc)) hl]
    rw [List.cons_append]

theorem joinSlash_cons₂ (g h : List Char) (gs : List (List Char)) :
    joinSlash (g :: h :: gs) = g ++ '/' :: joinSlash (h :: gs) := rfl

theorem joinSlash_splitSlash : ∀ l : List Char, joinSlash (splitSlash l) = l := by
  intro l
  induction l with
  | nil => rfl
  | cons x rest ih =>
    simp only [splitSlash]
    by_cases hx : x = '/'
    · rw [if_pos hx]
      cases hsp : splitSlash rest with
      | nil => exact absurd hsp (splitSlash_ne_nil rest)
      | cons g gs =>
        rw [hsp] at ih
        rw [joinSlash_cons₂, List.nil_append, ih, hx]
    · rw [if_neg hx]
      cases hsp : splitSlash rest with
      | nil => exact absurd hsp (splitSlash_ne_nil rest)
      | cons g gs =>
        rw [hsp] at ih
        cases gs with
        | nil =>
          show x :: g = x :: rest
          rw [show joinSlash [g] = g from rfl] at ih
          rw [ih]
        | cons g2 gs' =>
          show joinSlash ((x :: g) :: g2 :: gs') = x :: rest
          rw [joinSlash_cons₂, List.cons_append, ← joinSlash_cons₂, ih]

theorem splitSlash_no_slash :
    ∀ (l : List Char) (g : List Char), g ∈ splitSlash l → ∀ c ∈ g, ¬ (c = '/') := by
  intro l
  induction l with
  | nil =>
    intro g hg c hc
    simp only [splitSlash, List.mem_singleton] at hg
    subst hg
    exact absurd hc (List.not_mem_nil c)
  | cons x rest ih =>
    intro g hg c hc
    simp only [splitSlash] at hg
    by_cases hx : x = '/'
    · rw [if_pos hx] at hg
      rcases List.mem_cons.mp hg with h1 | h1
      · subst h1
        exact absurd hc (List.not_mem_nil c)
      · exact ih g h1 c hc
    · rw [if_neg hx] at hg
      cases hsp : splitSlash rest with
      | nil => exact absurd hsp (splitSlash_ne_nil rest)
      | cons g0 gs =>
        rw [hsp] at hg
        rcases List.mem_cons.mp hg with h1 | h1
        · subst h1
          rcases List.mem_cons.mp hc with h2 | h2
          · subst h2; exact hx
          · exact ih g0 (by rw [hsp]; exact List.mem_cons_self g0 gs) c h2
        · exact ih g (by rw [hsp]; exact List.mem_cons_of_mem g0 h1) c hc

theorem splitSlash_three (a b c : List Char)
    (ha : ∀ x ∈ a, ¬ (x = '/')) (hb : ∀ x ∈ b, ¬ (x = '/'))
    (hc : ∀ x ∈ c, ¬ (x = '/')) :
    splitSlash (a ++ '/' :: b ++ '/' :: c) = [a, b, c] := by
  have s3 : splitSlash c = [c] := by
    have := splitSlash_append_noslash c [] [] [] hc rfl
    simpa using this
  have s2 : splitSlash ('/' :: c) = [[], c] := by
    simp only [splitSlash]
    simp [s3]
  have s2b : splitSlash (b ++ '/' :: c) = [b, c] := by
    have := splitSlash_append_noslash b ('/' :: c) [] [c] hb s2
    simpa using this
  have s1 : splitSlash ('/' :: (b ++ '/' :: c)) = [[], b, c] := by
    simp only [splitSlash]
    simp [s2b]
  have := splitSlash_append_noslash a ('/' :: (b ++ '/' :: c)) [] [b, c] ha s1
  simpa using this

theorem all_digits_no_slash {l : List Char} (h : l.all pyIsDigit = true) :
    ∀ x ∈ l, ¬ (x = '/') :=
  fun x hx => digit_ne_slash (List.all_eq_true.mp h x hx)

theorem strptime_of_shape (a b c : List Char)
    (hd : dayTok a = true) (hm : monTok b = true) (hy : yearTok c = true) :
    strptime_dmy ⟨a ++ '/' :: b ++ '/' :: c⟩
      = if 1 ≤ digitsToNat c
            ∧ digitsToNat a ≤ daysInMonth (digitsToNat b) (digitsToNat c)
        then some (digitsToNat a, digitsToNat b, digitsToNat c)
        else none := by
  have hda : a.all pyIsDigit = true := by
    rw [dayTok] at hd
    exact (Bool.and_eq_true_iff.mp
      (Bool.and_eq_true_iff.mp (Bool.and_eq_true_iff.mp hd).1).1).1
  have hdb : b.all pyIsDigit = true := by
    rw [monTok] at hm
    exact (Bool.and_eq_true_iff.mp
      (Bool.and_eq_true_iff.mp (Bool.and_eq_true_iff.mp hm).1).1).1
  have hdc : c.all pyIsDigit = true := by
    rw [yearTok] at hy
    exact (Bool.and_eq_true_iff.mp hy).1
  have hsplit : splitSlash (String.mk (a ++ '/' :: b ++ '/' :: c)).data
      = [a, b, c] := by
    show splitSlash (a ++ '/' :: b ++ '/' :: c) = [a, b, c]
    exact splitSlash_three a b c (all_digits_no_slash hda)
      (all_digits_no_slash hdb) (all_digits_no_slash hdc)
  simp only [strptime_dmy, hsplit, hd, hm, hy]
  simp

theorem format_date_of_none {s : String} (h : strptime_dmy s = none) :
    format_date_column s = s := by
  simp only [format_date_column, h]

theorem strptime_some_shape {s : String} {d m y : Nat}
    (h : strptime_dmy s = some (d, m, y)) :
    ∃ a b c : List Char, s.data = a ++ '/' :: b ++ '/' :: c
      ∧ dayTok a = true ∧ monTok b = true ∧ yearTok c = true
      ∧ 1 ≤ digitsToNat c
      ∧ digitsToNat a ≤ daysInMonth (digitsToNat b) (digitsToNat c)
      ∧ d = digitsToNat a ∧ m = digitsToNat b ∧ y = digitsToNat c := by
  have hjoin := joinSlash_splitSlash s.data
  rcases hsp : splitSlash s.data with _ | ⟨a, _ | ⟨b, _ | ⟨c, _ | ⟨e, rest⟩⟩⟩⟩
  · rw [strptime_dmy, hsp] at h; cases h
  · rw [strptime_dmy, hsp] at h; cases h
  · rw [strptime_dmy, hsp] at h; cases h
  · have hred : strptime_dmy s
        = if (dayTok a && monTok b && yearTok c) = true then
            (if 1 ≤ digitsToNat c
                ∧ digitsToNat a ≤ daysInMonth (digitsToNat b) (digitsToNat c)
             then some (digitsToNat a, digitsToNat b, digitsToNat c) else none)
          else none := by
      rw [strptime_dmy, hsp]
    rw [hred] at h
    by_cases htok : (dayTok a && monTok b && yearTok c) = true
    · rw [if_pos htok] at h
      by_cases hval : 1 ≤ digitsToNat c
          ∧ digitsToNat a ≤ daysInMonth (digitsToNat b) (digitsToNat c)
      · rw [if_pos hval] at h
        injection h with h2
        injection h2 with hd h3
        injection h3 with hm hy
        refine ⟨a, b, c, ?_, ?_, ?_, ?_, hval.1, hval.2, hd.symm, hm.symm, hy.symm⟩
        · rw [hsp] at hjoin
          rw [← hjoin, joinSlash_cons₂, joinSlash_cons₂,
            show joinSlash [c] = c from rfl]
          simp [List.append_assoc]
        · exact (Bool.and_eq_true_iff.mp (Bool.and_eq_true_iff.mp htok).1).1
        · exact (Bool.and_eq_true_iff.mp (Bool.and_eq_true_iff.mp htok).1).2
        · exact (Bool.and_eq_true_iff.mp htok).2
      · rw [if_neg hval] at h; cases h
    · rw [if_neg htok] at h; cases h
  · rw [strptime_dmy, hsp] at h; cases h

/-- C7 counterexample: the date parser is not restricted to
zero-padded day/month — `"5/1/2024"` parses and is reformatted to
`"2024-01-05"` although the claim requires it to pass through unchanged;
conversely `"31/02/2024"` is in strict zero-padded format but is not a
real calendar date, so it is returned unchanged rather than
reformatted. -/
theorem claim_C7_cex :
    format_date_column "5/1/2024" = "2024-01-05"
    ∧ format_date_column "5/1/2024" ≠ "5/1/2024"
    ∧ format_date_column "31/02/2024" = "31/02/2024" := by
  refine ⟨by decide, by decide, by decide⟩

/-- C7 (amended): `format_date_column` parses exactly the strings
`day/month/year` in which day and month are one or two digits (zero
padding optional) with values in range, the year is exactly four digits,
and the triple denotes a valid calendar date; those strings are
reformatted zero-padded as `year-month-day` and every other string is
returned unchanged — in particular `"05/13/2024"` is passed through
unchanged. -/
theorem claim_C7_date :
    (∀ a b c : List Char,
      dayTok a = true → monTok b = true → yearTok c = true →
      1 ≤ digitsToNat c →
      digitsToNat a ≤ daysInMonth (digitsToNat b) (digitsToNat c) →
      format_date_column ⟨a ++ '/' :: b ++ '/' :: c⟩
        = pad4 (digitsToNat c) ++ "-" ++ pad2 (digitsToNat b) ++ "-"
          ++ pad2 (digitsToNat a))
    ∧ (∀ s : String,
        (∀ a b c : List Char, s.data = a ++ '/' :: b ++ '/' :: c →
          ¬(dayTok a = true ∧ monTok b = true ∧ yearTok c = true
            ∧ 1 ≤ digitsToNat c
            ∧ digitsToNat a ≤ daysInMonth (digitsToNat b) (digitsToNat c))) →
        format_date_column s = s)
    ∧ format_date_column "05/13/2024" = "05/13/2024"
    ∧ format_date_column "05/01/2024" = "2024-01-05" := by
  refine ⟨?_, ?_, by decide, by decide⟩
  · intro a b c hd hm hy h1 h2
    simp only [format_date_column, strptime_of_shape a b c hd hm hy,
      if_pos (And.intro h1 h2)]
  · intro s hs
    cases hm : strptime_dmy s with
    | none => exact format_date_of_none hm
    | some t =>
      obtain ⟨d, m, y⟩ := t
      obtain ⟨a, b, c, hshape, hd2, hm2, hy2, h1, h2, -, -, -⟩ :=
        strptime_some_shape hm
      exact absurd ⟨hd2, hm2, hy2, h1, h2⟩ (hs a b c hshape)

/-- C7 witness: the positive branch applied at `"05/01/2024"`. -/
theorem claim_C7_witness :
    format_date_column
        ⟨['0', '5'] ++ '/' :: ['0', '1'] ++ '/' :: ['2', '0', '2', '4']⟩
      = pad4 (digitsToNat ['2', '0', '2', '4']) ++ "-"
        ++ pad2 (digitsToNat ['0', '1']) ++ "-" ++ pad2 (digitsToNat ['0', '5']) :=
  claim_C7_date.1 ['0', '5'] ['0', '1'] ['2', '0', '2', '4']
    (by decide) (by decide) (by decide) (by decide) (by decide)

end StudentAttendance
